import Mathlib

/-!
# WechatExporter: the export pipeline coordinator (`core/Exporter.cpp`)

A shallow embedding of `Exporter` and a verification of its specification.

Conventions of the embedding

* `std::string` is a Lean `String`; positions are indices into its character list (one `Char`
  stands for one C++ `char`).
* `std::set<std::string>` is a `Finset String`; `std::map<std::string, T>` is an association
  list read with `List.lookup`.
* The collaborators that `Exporter.cpp` only consumes (the `Shell`, the parsers, the downloader,
  the helpers of `Utils`, the option constants of the headers) are the fields of `Env`.
* A `const` method that reads a single member takes that member (`getTemplate m_templates`).
* Effects are recorded in the `Exporter` state: `log` (lines given to `m_logger->write`),
  `events` (calls received by the notifier) and `actions` (calls on the file system, the loaders
  and the download pool).
* A computation whose C++ behaviour is undefined (signed overflow of an `int`) yields `none`,
  which `Option.map` and `Option.bind` hand on to the caller.
-/

namespace WechatExporter

/-! ## `std::string` operations -/

/-- The pattern `pat` occurs in `s` at index `i`. -/
def occursAt (s pat : String) (i : Nat) : Bool :=
  decide (i ≤ s.data.length) && pat.data.isPrefixOf (s.data.drop i)

/-- The `s.find(pat, pos)`: the least index `i ≥ pos` at which `pat` occurs in `s`; `none` is
`std::string::npos`. -/
def find (s pat : String) (pos : Nat) : Option Nat :=
  (List.range (s.data.length + 1)).find? (fun i => decide (pos ≤ i) && occursAt s pat i)

/-- The `s.erase(pos, len)`. -/
def erase (s : String) (pos len : Nat) : String :=
  ⟨s.data.take pos ++ s.data.drop (pos + len)⟩

/-- Modelled from the spec: the `startsWith` helper of `Utils` (not in `Exporter.cpp`);
"placeholder begins with the reserved marker character". -/
def startsWith (s pre : String) : Bool :=
  pre.data.isPrefixOf s.data

/-- Scan of `replaceAll`: `skip` counts the characters of a matched occurrence that are still to
be passed over. -/
def replaceAllChars (search replace : List Char) : List Char → Nat → List Char
  | [], _ => []
  | _ :: cs, skip + 1 => replaceAllChars search replace cs skip
  | c :: cs, 0 =>
    if search.isPrefixOf (c :: cs) then
      replace ++ replaceAllChars search replace cs (search.length - 1)
    else
      c :: replaceAllChars search replace cs 0

/-- Modelled from the spec: the `replaceAll` helper of `Utils` (not in `Exporter.cpp`); "replace
every literal occurrence of the placeholder token in the markup with value", a plain left-to-right
literal replacement that does not rescan the inserted text. An empty token is never passed by
`Exporter.cpp`; the model returns the input for it. -/
def replaceAll (input search replace : String) : String :=
  if search.data = [] then input
  else ⟨replaceAllChars search.data replace.data input.data 0⟩

/-- Modelled from the spec: the `join` helper of `Utils` (not in `Exporter.cpp`); the elements of
`[b, e)` in order, separated by `delimiter`. -/
def join : List String → String → String
  | [], _ => ""
  | [x], _ => x
  | x :: y :: rest, delimiter => x ++ delimiter ++ join (y :: rest) delimiter

/-- Lookup in a `std::map<std::string, T>`: `m.find(key)`, `none` for `m.cend()`. -/
def mapFind {β : Type} (m : List (String × β)) (key : String) : Option β :=
  List.lookup key m

/-- Assignment `m[key] = value` in a `std::map<std::string, T>`. -/
def mapSet {β : Type} (m : List (String × β)) (key : String) (value : β) : List (String × β) :=
  (key, value) :: m.filter (fun kv => kv.1 != key)

/-! ## Data model -/

/-- An account or contact (`Friend`); `hash` is the content hash of `usrName`, computed by the
class (not in `Exporter.cpp`). -/
structure Friend where
  usrName : String
  displayName : String
  hash : String
  portrait : String
  localPortrait : String
  outputFileName : String
deriving DecidableEq

/-- A conversation (`Session`, a `Friend` with the session fields). -/
structure Session extends Friend where
  subscription : Bool
  dbFileEmpty : Bool
  portraitEmpty : Bool
  recordCount : Int
deriving DecidableEq

/-- The contact set (`Friends`), keyed by hash. -/
abbrev Friends := List (String × Friend)

/-- One template application of a rendered message unit: the template identifier and the
placeholder/value pairs in iteration order. -/
structure TemplateValues where
  name : String
  values : List (String × String)
deriving DecidableEq

/-- Events received by the `ExportNotifier`. -/
inductive NotifierEvent where
  | onStart
  | onProgress (numberOfMessages numberOfTotalMessages : Nat)
  | onComplete (cancelled : Bool)
deriving DecidableEq

/-- Calls made on the file system, the loaders and the download pool. -/
inductive Action where
  | makeDirectory (path : String)
  | copyFile (src dest : String)
  | writeFile (path content : String)
  | loadUserFriendsAndSessions (usrName : String)
  | setUserAgent (ua : String)
  | addTask (url path : String)
  | parseSession (usrName : String)
  | downloaderCancel
  | finishAndWaitForExit
deriving DecidableEq

/-- What `SessionParser::parse` did for one conversation: the value it returned, the rendered
message units it handed to the handler (one handler call each, in order), and whether a
`cancel()` from another thread arrived while it ran. -/
structure ParseOutcome where
  count : Int
  units : List (List TemplateValues)
  cancelRequested : Bool

/-- Everything `Exporter.cpp` consumes but does not define. The answers of the `Shell` directory
calls may depend on the calls made before (`List Action`). -/
structure Env where
  /-- Option constants of `SESSION_PARSING_OPTION` (header not in `Exporter.cpp`). -/
  SPO_TEXT_MODE : Nat
  SPO_ICON_IN_SESSION : Nat
  SPO_IGNORE_AVATAR : Nat
  SPO_IGNORE_EMOJI : Nat
  SPO_IGNORE_HTML_ENC : Nat
  -- Shell
  existsDirectory : List Action → String → Bool
  makeDirectory : List Action → String → Bool
  removeInvalidCharsForFileName : String → String
  -- Utils
  isValidFileName : String → Bool
  combinePath : List String → String
  formatString : String → List String → String
  encodeUrl : String → String
  safeHTML : String → String
  readFile : String → String
  /-- The `Json::FastWriter::write` of an array of strings, `Json::Reader::parse` of the locale file
  (its key/value entries in order) -/
  jsonWrite : List String → String
  jsonParseLocale : String → Option (List (String × String))
  /-- The `ITunesDb::load` of the primary index, `WechatInfoParser`, `LoginInfo2Parser` -/
  iTunesDbLoad : Bool
  iTunesVersion : String
  wechatInfoParse : Bool
  shortVersion : String
  userAgent : String
  loginInfo2Parse : Option (List Friend)
  /-- The `ITunesDb::findRealPath`, `FriendsParser::parseWcdb`, `SessionsParser::parse`, `std::sort`
  with `SessionLastMsgTimeCompare` -/
  findRealPath : String → String
  friendsParse : String → Friends
  sessionsParse : Friend → Friends → List Session
  sortSessions : List Session → List Session
  /-- The `SessionParser::parse` for (myself, friends, options, userBase, outputBase, session) -/
  sessionParse : Friend → Friends → Nat → String → String → Session → ParseOutcome
  /-- A `cancel()` from another thread arrives while the account is being loaded. -/
  cancelDuringLoad : Friend → Bool
  /-- The `Downloader::getRunningCount` -/
  runningCount : List Action → Int
  /-- The `difftime(endTime, startTime)` cast to `int` -/
  elapsedSeconds : Int

/-- Invocations of the per-account and per-conversation export steps (history variable). -/
inductive Call where
  | exportUser (usrName : String)
  | exportSession (usrName : String)
deriving DecidableEq

/-- The `Exporter` object: its members and the effects recorded so far. `threadJoinable` is
`m_thread.joinable()`, `workerActive` says that the thread started by `run` is still executing
`runImpl`. -/
structure Exporter where
  m_running : Bool
  threadJoinable : Bool
  workerActive : Bool
  m_cancelled : Bool
  m_options : Nat
  m_extName : String
  m_templatesName : String
  m_workDir : String
  m_backup : String
  m_output : String
  m_usersAndSessions : List (String × Finset String)
  m_templates : List (String × String)
  m_localeStrings : List (String × String)
  hasNotifier : Bool
  log : List String
  debugLog : List String
  events : List NotifierEvent
  actions : List Action
  calls : List Call

/-- The `m_logger->write(line)`. -/
def Exporter.write (ex : Exporter) (line : String) : Exporter :=
  { ex with log := ex.log ++ [line] }

/-- The `m_logger->debug(line)`. -/
def Exporter.debug (ex : Exporter) (line : String) : Exporter :=
  { ex with debugLog := ex.debugLog ++ [line] }

/-- Record a call on a collaborator. -/
def Exporter.act (ex : Exporter) (a : Action) : Exporter :=
  { ex with actions := ex.actions ++ [a] }

/-- Record an invocation of an export step. -/
def Exporter.call (ex : Exporter) (c : Call) : Exporter :=
  { ex with calls := ex.calls ++ [c] }

/-- The members that no step of the account and conversation loops assigns, together with the
events received by the notifier. -/
def Exporter.fixed (ex : Exporter) :
    (Bool × Bool × Bool) × (Nat × String × String × String × String × String) ×
      List (String × Finset String) × List (String × String) × List (String × String) ×
      Bool × List NotifierEvent :=
  ((ex.m_running, ex.threadJoinable, ex.workerActive),
    (ex.m_options, ex.m_extName, ex.m_templatesName, ex.m_workDir, ex.m_backup, ex.m_output),
    ex.m_usersAndSessions, ex.m_templates, ex.m_localeStrings, ex.hasNotifier, ex.events)

/-- The `Exporter::Exporter`: the state after construction. -/
def Exporter.new (workDir backup output : String) : Exporter :=
  { m_running := false, threadJoinable := false, workerActive := false, m_cancelled := false,
    m_options := 0, m_extName := "html", m_templatesName := "templates", m_workDir := workDir,
    m_backup := backup, m_output := output, m_usersAndSessions := [], m_templates := [],
    m_localeStrings := [], hasNotifier := false, log := [], debugLog := [], events := [],
    actions := [], calls := [] }

/-- The `Exporter::setNotifier` with a non-null notifier. -/
def setNotifier (ex : Exporter) : Exporter :=
  { ex with hasNotifier := true }

/-- The `Exporter::isRunning`. -/
def isRunning (ex : Exporter) : Bool :=
  ex.m_running

/-- The `Exporter::cancel`. -/
def cancel (ex : Exporter) : Exporter :=
  { ex with m_cancelled := true }

/-- The `Exporter::waitForComplition`. `m_thread.join()` returns only once the worker has finished
(`none` while it is still active) and raises on a thread that is not joinable (`none`). -/
def waitForComplition (ex : Exporter) : Option Exporter :=
  if !isRunning ex then some ex
  else if ex.workerActive || !ex.threadJoinable then none
  else some { ex with threadJoinable := false }

/-- The `Exporter::getTemplate`. -/
def getTemplate (m_templates : List (String × String)) (key : String) : String :=
  match mapFind m_templates key with
  | none => ""
  | some v => v

/-- The `Exporter::getLocaleString`. -/
def getLocaleString (m_localeStrings : List (String × String)) (key : String) : String :=
  match mapFind m_localeStrings key with
  | none => key
  | some v => v

/-- The `Exporter::notifyStart`. -/
def notifyStart (ex : Exporter) : Exporter :=
  if ex.hasNotifier then { ex with events := ex.events ++ [NotifierEvent.onStart] } else ex

/-- The `Exporter::notifyComplete`. -/
def notifyComplete (ex : Exporter) (cancelled : Bool) : Exporter :=
  if ex.hasNotifier then { ex with events := ex.events ++ [NotifierEvent.onComplete cancelled] }
  else ex

/-- The `Exporter::notifyProgress`. -/
def notifyProgress (ex : Exporter) (numberOfMessages numberOfTotalMessages : Nat) : Exporter :=
  if ex.hasNotifier then
    { ex with events := ex.events ++
        [NotifierEvent.onProgress numberOfMessages numberOfTotalMessages] }
  else ex

/-! ## Name resolution -/

/-- The largest value of the 32-bit `int` that counts the suffix. -/
def INT_MAX : Nat := 2147483647

/-- The `while (idx++)` loop of `buildFileNameForUser`, entered with the counter holding `idx`
(non-zero). `fuel` is the number of increments the `int` counter can still take; with none left
the next `idx++` overflows, which C++ leaves undefined (`none`). -/
def suffixLoop (existingFileNames : Finset String) (outputFileName : String) :
    Nat → Nat → Option String
  | 0, _ => none
  | fuel + 1, idx =>
    let idx := idx + 1
    if outputFileName ++ "_" ++ toString idx ∉ existingFileNames then
      some (outputFileName ++ "_" ++ toString idx)
    else
      suffixLoop existingFileNames outputFileName fuel idx

/-- The `for` loop of `buildFileNameForUser` over the remaining candidate names. The result is
`(succeeded, user, existingFileNames)`. -/
def buildFileNameLoop (env : Env) (user : Friend) (existingFileNames : Finset String) :
    List String → Option (Bool × Friend × Finset String)
  | [] => some (false, user, existingFileNames)
  | name :: names =>
    let outputFileName := env.removeInvalidCharsForFileName name
    if env.isValidFileName outputFileName then
      if outputFileName ∈ existingFileNames then
        match suffixLoop existingFileNames outputFileName (INT_MAX - 1) 1 with
        | none => none
        | some outputFileName =>
          some (true, { user with outputFileName := outputFileName },
            insert outputFileName existingFileNames)
      else
        some (true, { user with outputFileName := outputFileName },
          insert outputFileName existingFileNames)
    else
      buildFileNameLoop env user existingFileNames names

/-- The `Exporter::buildFileNameForUser`: `(succeeded, user, existingFileNames)` after the call,
`none` when the suffix counter overflows. -/
def buildFileNameForUser (env : Env) (user : Friend) (existingFileNames : Finset String) :
    Option (Bool × Friend × Finset String) :=
  buildFileNameLoop env user existingFileNames [user.displayName, user.usrName, user.hash]

/-- Successive calls of `buildFileNameForUser` on the entities of a list, all with one used-names
set: the flag and the entity after each call, in order, and the set after the last call. -/
def buildFileNames (env : Env) :
    List Friend → Finset String → Option (List (Bool × Friend) × Finset String)
  | [], existingFileNames => some ([], existingFileNames)
  | user :: users, existingFileNames =>
    match buildFileNameForUser env user existingFileNames with
    | none => none
    | some (succeeded, user, existingFileNames) =>
      match buildFileNames env users existingFileNames with
      | none => none
      | some (results, existingFileNames) => some ((succeeded, user) :: results, existingFileNames)

/-- The output names assigned by the successful calls among `results`, in order. -/
def assignedNames (results : List (Bool × Friend)) : List String :=
  (results.filter (fun r => r.1)).map (fun r => r.2.outputFileName)

/-! ## Template rendering -/

/-- The reserved marker `%%` occurs in `s` at index `i`. -/
def markerAt (s : String) (i : Nat) : Prop :=
  s.data[i]? = some '%' ∧ s.data[i + 1]? = some '%'

/-- The substitution loop of `buildContentFromTemplateValues`. -/
def substituteValues (content : String) : List (String × String) → String
  | [] => content
  | (k, v) :: rest =>
    if startsWith k "%" then substituteValues (replaceAll content k v) rest
    else substituteValues content rest

/-- The cleanup loop of `buildContentFromTemplateValues`, entered with `pos`; one unit of `fuel`
per evaluation of the loop condition, `none` when it runs out. -/
def cleanupLoop : Nat → String → Nat → Option String
  | 0, _, _ => none
  | fuel + 1, content, pos =>
    match find content "%%" pos with
    | none => some content
    | some pos =>
      match find content "%%" (pos + 2) with
      | none => some content
      | some posEnd => cleanupLoop fuel (erase content pos (posEnd + 2 - pos)) pos

/-- The `Exporter::buildContentFromTemplateValues`. The cleanup loop is run with
`content.length + 1` units of fuel, which it never exhausts (`cleanupLoop_terminates`). -/
def buildContentFromTemplateValues (m_templates : List (String × String))
    (values : TemplateValues) : String :=
  let content := substituteValues (getTemplate m_templates values.name) values.values
  match cleanupLoop (content.data.length + 1) content 0 with
  | some content => content
  | none => content

/-! ## Per-conversation export -/

/-- The `Exporter::exportMessage`: the message list after the call and the returned flag. -/
def exportMessage (m_templates : List (String × String)) (m_cancelled : Bool)
    (tvs : List TemplateValues) (messages : List String) : List String × Bool :=
  let content :=
    tvs.foldl (fun content tv => content ++ buildContentFromTemplateValues m_templates tv) ""
  (messages ++ [content], m_cancelled)

/-- The messages collected by the handler over the calls made by the parser. -/
def collectMessages (m_templates : List (String × String)) (m_cancelled : Bool)
    (units : List (List TemplateValues)) : List String :=
  units.foldl (fun messages tvs => (exportMessage m_templates m_cancelled tvs messages).1) []

/-- The pagination block of `exportSession`: the iterator `e` (as an index, `b` being 0), the
entries appended to the Json array, the payload string `moreMsgs` and the inline body
`join(b, e, "")`. -/
structure Page where
  e : Nat
  jsonMsgs : List String
  moreMsgs : String
  body : String

/-- The pagination block of `exportSession`. -/
def paginate (env : Env) (m_options : Nat) (messages : List String) : Page :=
  let pageSize := 1000
  let b := 0
  let e :=
    if (m_options &&& env.SPO_TEXT_MODE) = env.SPO_TEXT_MODE ∨ messages.length ≤ pageSize then
      messages.length
    else b + pageSize
  let moreMsgs := if (m_options &&& env.SPO_TEXT_MODE) = env.SPO_TEXT_MODE then "" else "[]"
  let jsonMsgs := if e ≠ messages.length then messages.drop e else []
  let moreMsgs := if e ≠ messages.length then env.jsonWrite jsonMsgs else moreMsgs
  { e := e, jsonMsgs := jsonMsgs, moreMsgs := moreMsgs,
    body := join ((messages.take e).drop b) "" }

/-- The document written by `exportSession` for a conversation. -/
def sessionDocument (env : Env) (m_templates : List (String × String)) (m_options : Nat)
    (session : Session) (messages : List String) : String :=
  let page := paginate env m_options messages
  let html := getTemplate m_templates "frame"
  let html := replaceAll html "%%DISPLAYNAME%%" session.displayName
  let html := replaceAll html "%%BODY%%" page.body
  replaceAll html "%%JSONDATA%%" page.moreMsgs

/-- The `Exporter::exportSession`: the returned count and the state after the call. -/
def exportSession (env : Env) (ex : Exporter) (user : Friend) (friends : Friends)
    (session : Session) (userBase outputBase : String) : Int × Exporter :=
  let ex := ex.call (Call.exportSession session.usrName)
  if session.dbFileEmpty then (0, ex)
  else
    let sessionBasePath := env.combinePath [outputBase, session.outputFileName ++ "_files"]
    let ex :=
      if (ex.m_options &&& env.SPO_IGNORE_AVATAR) = 0 then
        let portraitPath := env.combinePath [sessionBasePath, "Portrait"]
        let ex := ex.act (Action.makeDirectory portraitPath)
        let defaultPortrait := env.combinePath [portraitPath, "DefaultProfileHead@2x.png"]
        ex.act (Action.copyFile
          (env.combinePath [ex.m_workDir, "res", "DefaultProfileHead@2x.png"]) defaultPortrait)
      else ex
    let ex :=
      if (ex.m_options &&& env.SPO_IGNORE_EMOJI) = 0 then
        ex.act (Action.makeDirectory (env.combinePath [sessionBasePath, "Emoji"]))
      else ex
    let outcome := env.sessionParse user friends ex.m_options userBase outputBase session
    let messages := collectMessages ex.m_templates ex.m_cancelled outcome.units
    let ex := ex.act (Action.parseSession session.usrName)
    let ex := { ex with m_cancelled := ex.m_cancelled || outcome.cancelRequested }
    let count := outcome.count
    let ex :=
      if count > 0 ∧ messages ≠ [] then
        let fileName :=
          env.combinePath [outputBase, session.outputFileName ++ "." ++ ex.m_extName]
        ex.act (Action.writeFile fileName
          (sessionDocument env ex.m_templates ex.m_options session messages))
      else ex
    (count, ex)

/-! ## Per-account export -/

/-- The `Exporter::loadUserFriendsAndSessions`: the contacts, the sorted conversations and the
state after the call. -/
def loadUserFriendsAndSessions (env : Env) (ex : Exporter) (user : Friend)
    (detailedInfo : Bool) : Friends × List Session × Exporter :=
  let uidMd5 := user.hash
  let userBase := env.combinePath ["Documents", uidMd5]
  let ex := ex.act (Action.loadUserFriendsAndSessions user.usrName)
  let ex := { ex with m_cancelled := ex.m_cancelled || env.cancelDuringLoad user }
  let (friends, ex) :=
    if detailedInfo then
      let wcdbPath := env.findRealPath (env.combinePath [userBase, "DB", "WCDB_Contact.sqlite"])
      let friends := env.friendsParse wcdbPath
      (friends, ex.debug ("Wechat Friends(" ++ toString friends.length ++ ") for: " ++
        user.displayName ++ " loaded."))
    else (([] : Friends), ex)
  let sessions := env.sessionsParse user friends
  let sessions := env.sortSessions sessions
  (friends, sessions, ex.debug ("Wechat Sessions for: " ++ user.displayName ++ " loaded."))

/-- The filter test of the conversation loop: the conversation is skipped. -/
def sessionFilteredOut (ex : Exporter) (itUser : Option (Finset String)) (usrName : String) :
    Bool :=
  !ex.m_usersAndSessions.isEmpty &&
    (match itUser with
     | none => true
     | some allowed => decide (usrName ∉ allowed))

/-- The conversation loop of `exportUser` from the iterator position `idx` on: the state, the
used names and the index body when the loop is left. -/
def exportUserSessions (env : Env) (myself : Friend) (friends : Friends)
    (itUser : Option (Finset String)) (userBase outputBase : String) (size : Nat) :
    List Session → Nat → Exporter → Finset String → String →
      Option (Exporter × Finset String × String)
  | [], _, ex, sessionFileNames, userBody => some (ex, sessionFileNames, userBody)
  | it :: rest, idx, ex, sessionFileNames, userBody =>
    if ex.m_cancelled then some (ex, sessionFileNames, userBody)
    else if sessionFilteredOut ex itUser it.usrName then
      exportUserSessions env myself friends itUser userBase outputBase size rest (idx + 1) ex
        sessionFileNames userBody
    else
      match buildFileNameForUser env it.toFriend sessionFileNames with
      | none => none
      | some (false, _, _) =>
        let ex := ex.write (env.formatString
          (getLocaleString ex.m_localeStrings "Can't build directory name for chat: %s. Skip it.")
          [it.displayName])
        exportUserSessions env myself friends itUser userBase outputBase size rest (idx + 1) ex
          sessionFileNames userBody
      | some (true, named, sessionFileNames) =>
        let it : Session := { it with toFriend := named }
        let sessionDisplayName := it.displayName
        let ex := ex.write (env.formatString
          (getLocaleString ex.m_localeStrings "%d/%d: Handling the chat with %s")
          [toString (idx + 1), toString size, sessionDisplayName])
        if it.subscription then
          let ex := ex.write (env.formatString (getLocaleString ex.m_localeStrings "Skip subscription: %s")
            [sessionDisplayName])
          exportUserSessions env myself friends itUser userBase outputBase size rest (idx + 1) ex
            sessionFileNames userBody
        else
          let ex :=
            if (ex.m_options &&& env.SPO_IGNORE_AVATAR) = 0 ∧ !it.portraitEmpty then
              ex.act (Action.addTask it.portrait
                (env.combinePath [outputBase, "Portrait", it.localPortrait]))
            else ex
          let (count, ex) := exportSession env ex myself friends it userBase outputBase
          let ex := ex.write (env.formatString
            (getLocaleString ex.m_localeStrings "Succeeded handling %d messages.") [toString count])
          let userBody :=
            if count > 0 then
              let userItem := getTemplate ex.m_templates "listitem"
              let userItem :=
                replaceAll userItem "%%ITEMPICPATH%%" ("Portrait/" ++ it.localPortrait)
              let userItem :=
                if (ex.m_options &&& env.SPO_IGNORE_HTML_ENC) = 0 then
                  let userItem := replaceAll userItem "%%ITEMLINK%%"
                    (env.encodeUrl it.outputFileName ++ "." ++ ex.m_extName)
                  replaceAll userItem "%%ITEMTEXT%%" (env.safeHTML sessionDisplayName)
                else
                  let userItem := replaceAll userItem "%%ITEMLINK%%"
                    (it.outputFileName ++ "." ++ ex.m_extName)
                  replaceAll userItem "%%ITEMTEXT%%" sessionDisplayName
              userBody ++ userItem
            else userBody
          exportUserSessions env myself friends itUser userBase outputBase size rest (idx + 1) ex
            sessionFileNames userBody

/-- The part of `exportUser` after the output folder exists. -/
def exportUserBody (env : Env) (ex : Exporter) (user : Friend) (userBase outputBase : String) :
    Option Exporter :=
  let ex :=
    if (ex.m_options &&& env.SPO_IGNORE_AVATAR) = 0 then
      let portraitPath := env.combinePath [outputBase, "Portrait"]
      let ex := ex.act (Action.makeDirectory portraitPath)
      let defaultPortrait := env.combinePath [portraitPath, "DefaultProfileHead@2x.png"]
      ex.act (Action.copyFile
        (env.combinePath [ex.m_workDir, "res", "DefaultProfileHead@2x.png"]) defaultPortrait)
    else ex
  let ex :=
    if (ex.m_options &&& env.SPO_ICON_IN_SESSION) = 0 ∧
        (ex.m_options &&& env.SPO_IGNORE_EMOJI) = 0 then
      ex.act (Action.makeDirectory (env.combinePath [outputBase, "Emoji"]))
    else ex
  let ex := ex.write (env.formatString
    (getLocaleString ex.m_localeStrings "Handling account: %s, Wechat Id: %s") [user.displayName, user.usrName])
  let ex := ex.write (getLocaleString ex.m_localeStrings "Reading account info.")
  let ex := ex.write (getLocaleString ex.m_localeStrings "Reading chat info")
  let (friends, sessions, ex) := loadUserFriendsAndSessions env ex user true
  let ex := ex.write (env.formatString (getLocaleString ex.m_localeStrings "%d chats found.")
    [toString sessions.length])
  let (myself, friends) :=
    match mapFind friends user.hash with
    | some myself => (myself, friends)
    | none => (user, friends ++ [(user.hash, user)])
  let itUser :=
    if !ex.m_usersAndSessions.isEmpty then mapFind ex.m_usersAndSessions user.usrName else none
  let ex := ex.act (Action.setUserAgent env.userAgent)
  let ex :=
    if (ex.m_options &&& env.SPO_IGNORE_AVATAR) = 0 then
      ex.act (Action.addTask user.portrait
        (env.combinePath [outputBase, "Portrait", user.localPortrait]))
    else ex
  (exportUserSessions env myself friends itUser userBase outputBase sessions.length
      sessions 0 ex ∅ "").map (fun (ex, _, userBody) =>
    let html := getTemplate ex.m_templates "listframe"
    let html := replaceAll html "%%USERNAME%%" (" - " ++ user.displayName)
    let html := replaceAll html "%%TBODY%%" userBody
    let fileName := env.combinePath [outputBase, "index." ++ ex.m_extName]
    let ex := ex.act (Action.writeFile fileName html)
    let ex :=
      if ex.m_cancelled then ex.act Action.downloaderCancel
      else
        let dlCount := env.runningCount ex.actions
        if dlCount > 0 then
          ex.write (env.formatString
            (getLocaleString ex.m_localeStrings "Waiting for images(%d) downloading.")
            [toString dlCount])
        else ex
    ex.act Action.finishAndWaitForExit)

/-- The `Exporter::exportUser`: the returned flag, `userOutputPath` and the state after the call;
`none` when a suffix counter overflows. -/
def exportUser (env : Env) (ex : Exporter) (user : Friend) : Option (Bool × String × Exporter) :=
  let ex := ex.call (Call.exportUser user.usrName)
  let uidMd5 := user.hash
  let userBase := env.combinePath ["Documents", uidMd5]
  let userOutputPath := user.outputFileName
  let outputBase := env.combinePath [ex.m_output, userOutputPath]
  if env.existsDirectory ex.actions outputBase then
    (exportUserBody env ex user userBase outputBase).map (fun ex => (true, userOutputPath, ex))
  else
    let made := env.makeDirectory ex.actions outputBase
    let ex := ex.act (Action.makeDirectory outputBase)
    if made then
      (exportUserBody env ex user userBase outputBase).map (fun ex => (true, userOutputPath, ex))
    else
      let userOutputPath := user.hash
      let outputBase := env.combinePath [ex.m_output, userOutputPath]
      if env.existsDirectory ex.actions outputBase then
        (exportUserBody env ex user userBase outputBase).map
          (fun ex => (true, userOutputPath, ex))
      else
        let made := env.makeDirectory ex.actions outputBase
        let ex := ex.act (Action.makeDirectory outputBase)
        if made then
          (exportUserBody env ex user userBase outputBase).map
            (fun ex => (true, userOutputPath, ex))
        else
          some (false, userOutputPath, ex)

/-! ## The run -/

/-- The `Exporter::loadStrings`. -/
def loadStrings (env : Env) (ex : Exporter) : Exporter :=
  let ex := { ex with m_localeStrings := [] }
  let path := env.combinePath [ex.m_workDir, "res", "locale.txt"]
  match env.jsonParseLocale (env.readFile path) with
  | some entries =>
    { ex with m_localeStrings := entries.foldl (fun m kv => mapSet m kv.1 kv.2) [] }
  | none => ex

/-- The template names read by `loadTemplates`. -/
def templateNames : List String :=
  ["frame", "msg", "video", "notice", "system", "audio", "image", "card", "emoji", "plainshare",
    "share", "thumb", "listframe", "listitem"]

/-- The `Exporter::loadTemplates`. -/
def loadTemplates (env : Env) (ex : Exporter) : Exporter :=
  templateNames.foldl
    (fun ex name =>
      let path := env.combinePath [ex.m_workDir, "res", ex.m_templatesName, name ++ ".html"]
      { ex with m_templates := mapSet ex.m_templates name (env.readFile path) })
    ex

/-- The cast `(int)(users.size())`. -/
def toInt32 (n : Nat) : Int :=
  if n % 2 ^ 32 < 2 ^ 31 then (n % 2 ^ 32 : Nat) else ((n % 2 ^ 32 : Nat) : Int) - 2 ^ 32

/-- Output of an `int` with `std::setfill` of 0 and `std::setw(2)`. -/
def setw2 (n : Int) : String :=
  if (toString n).length < 2 then "0" ++ toString n else toString n

/-- The elapsed time as written by `runImpl`. -/
def formatElapsed (seconds : Int) : String :=
  let minutes := seconds.tdiv 60
  let hours := minutes.tdiv 60
  setw2 hours ++ ":" ++ setw2 (minutes.tmod 60) ++ ":" ++ setw2 (seconds.tmod 60)

/-- The account loop of `runImpl`: the state, the used names and the index body when the loop is
left. -/
def runImplUsers (env : Env) :
    List Friend → Exporter → Finset String → String → Option (Exporter × Finset String × String)
  | [], ex, userFileNames, htmlBody => some (ex, userFileNames, htmlBody)
  | it :: rest, ex, userFileNames, htmlBody =>
    if ex.m_cancelled then some (ex, userFileNames, htmlBody)
    else if !ex.m_usersAndSessions.isEmpty ∧ mapFind ex.m_usersAndSessions it.usrName = none then
      runImplUsers env rest ex userFileNames htmlBody
    else
      match buildFileNameForUser env it userFileNames with
      | none => none
      | some (false, _, _) =>
        let ex := ex.write (env.formatString
          (getLocaleString ex.m_localeStrings "Can't build directory name for user: %s. Skip it.") [it.usrName])
        runImplUsers env rest ex userFileNames htmlBody
      | some (true, it, userFileNames) =>
        (exportUser env ex it).bind (fun (_, userOutputPath, ex) =>
          let userItem := getTemplate ex.m_templates "listitem"
          let userItem := replaceAll userItem "%%ITEMPICPATH%%"
            (userOutputPath ++ "/Portrait/" ++ it.localPortrait)
          let userItem :=
            if (ex.m_options &&& env.SPO_IGNORE_HTML_ENC) = 0 then
              let userItem := replaceAll userItem "%%ITEMLINK%%"
                (env.encodeUrl it.outputFileName ++ "/index." ++ ex.m_extName)
              replaceAll userItem "%%ITEMTEXT%%" (env.safeHTML it.displayName)
            else
              let userItem := replaceAll userItem "%%ITEMLINK%%"
                (it.outputFileName ++ "/index." ++ ex.m_extName)
              replaceAll userItem "%%ITEMTEXT%%" it.displayName
          runImplUsers env rest ex userFileNames (htmlBody ++ userItem))

/-- The part of `runImpl` after the locale strings and the templates are loaded. -/
def runImplLoaded (env : Env) (ex : Exporter) : Option (Bool × Exporter) :=
  let ex := ex.write
    (env.formatString (getLocaleString ex.m_localeStrings "iTunes Backup: %s") [ex.m_backup])
  if !env.iTunesDbLoad then
    let ex := ex.write (env.formatString
      (getLocaleString ex.m_localeStrings
        "Failed to parse the backup data of iTunes in the directory: %s")
      [ex.m_backup])
    some (false, notifyComplete ex false)
  else
    let ex := ex.debug "ITunes Database loaded."
    let ex :=
      if env.wechatInfoParse then
        ex.write (env.formatString
          (getLocaleString ex.m_localeStrings "iTunes Version: %s, Wechat Version: %s")
          [env.iTunesVersion, env.shortVersion])
      else ex
    let ex := ex.write (getLocaleString ex.m_localeStrings "Finding Wechat accounts...")
    match env.loginInfo2Parse with
    | none =>
      let ex := ex.write (getLocaleString ex.m_localeStrings "Failed to find Wechat account.")
      some (false, notifyComplete ex false)
    | some users =>
      let ex := ex.write (env.formatString
        (getLocaleString ex.m_localeStrings "%d Wechat account(s) found.")
        [toString (toInt32 users.length)])
      (runImplUsers env users ex ∅ "").map (fun (ex, _, htmlBody) =>
        let fileName := env.combinePath [ex.m_output, "index." ++ ex.m_extName]
        let html := getTemplate ex.m_templates "listframe"
        let html := replaceAll html "%%USERNAME%%" ""
        let html := replaceAll html "%%TBODY%%" htmlBody
        let ex := ex.act (Action.writeFile fileName html)
        let ex := ex.write (env.formatString
          (getLocaleString ex.m_localeStrings
            (if ex.m_cancelled then "Cancelled in %s." else "Completed in %s."))
          [formatElapsed env.elapsedSeconds])
        (true, notifyComplete ex ex.m_cancelled))

/-- The `Exporter::runImpl`: the returned flag and the state after the call; `none` when a suffix
counter overflows. -/
def runImpl (env : Env) (ex : Exporter) : Option (Bool × Exporter) :=
  let ex := notifyStart ex
  let ex := loadStrings env ex
  let ex := loadTemplates env ex
  runImplLoaded env ex

/-- The `Exporter::run`: the returned flag and the state after the call. On acceptance the worker
thread is started; its execution of `runImpl` is the step `workerFinished`. -/
def run (env : Env) (ex : Exporter) : Bool × Exporter :=
  if isRunning ex || ex.threadJoinable then
    (false, ex.write (getLocaleString ex.m_localeStrings "Previous task has not completed."))
  else if !env.existsDirectory ex.actions ex.m_output then
    (false, ex.write (env.formatString
      (getLocaleString ex.m_localeStrings "Can't access output directory: %s") [ex.m_output]))
  else
    (true, { ex with m_running := true, threadJoinable := true, workerActive := true })

/-- The worker thread started by `run` executes `runImpl` to its end. -/
def workerFinished (env : Env) (ex : Exporter) : Option Exporter :=
  if ex.workerActive then
    (runImpl env ex).map (fun (_, ex) => { ex with workerActive := false })
  else none

/-! ## A concrete environment for the examples -/

/-- An account for the examples: `hash` and `localPortrait` are derived from `usrName`. -/
def exampleFriend (usrName displayName : String) : Friend :=
  { usrName := usrName, displayName := displayName, hash := "h-" ++ usrName, portrait := "",
    localPortrait := usrName ++ ".jpg", outputFileName := "" }

/-- An environment for the examples: the output root `out` exists and no directory can be
created; names are valid when non-empty and nothing is stripped; the backup holds two accounts
that are both displayed as Alice. -/
def exampleEnv : Env :=
  { SPO_TEXT_MODE := 1, SPO_ICON_IN_SESSION := 2, SPO_IGNORE_AVATAR := 4, SPO_IGNORE_EMOJI := 8,
    SPO_IGNORE_HTML_ENC := 16,
    existsDirectory := fun _ path => path == "out",
    makeDirectory := fun _ _ => false,
    removeInvalidCharsForFileName := fun s => s,
    isValidFileName := fun s => s != "",
    combinePath := fun parts => join parts "/",
    formatString := fun fmt args => join (fmt :: args) " | ",
    encodeUrl := fun s => s,
    safeHTML := fun s => s,
    readFile := fun path =>
      if path == "work/res/templates/listitem.html" then "<li>%%ITEMTEXT%%</li>"
      else if path == "work/res/templates/listframe.html" then "<ul>%%TBODY%%</ul>"
      else "",
    jsonWrite := fun msgs => "[" ++ join msgs "," ++ "]",
    jsonParseLocale := fun _ => none,
    iTunesDbLoad := true, iTunesVersion := "", wechatInfoParse := false, shortVersion := "",
    userAgent := "",
    loginInfo2Parse := some [exampleFriend "u1" "Alice", exampleFriend "u2" "Alice"],
    findRealPath := fun path => path,
    friendsParse := fun _ => [],
    sessionsParse := fun _ _ => [],
    sortSessions := fun sessions => sessions,
    sessionParse := fun _ _ _ _ _ _ => { count := 0, units := [], cancelRequested := false },
    cancelDuringLoad := fun _ => false,
    runningCount := fun _ => 0,
    elapsedSeconds := 0 }

/-- A conversation for the examples, with a message database. -/
def exampleSession (usrName displayName : String) : Session :=
  { toFriend := { exampleFriend usrName displayName with outputFileName := usrName },
    subscription := false, dbFileEmpty := false, portraitEmpty := true, recordCount := 0 }

/-- The rendered units of a conversation of 1500 messages (each unit without template
application). -/
def exampleUnits1500 : List (List TemplateValues) :=
  List.replicate 1500 []

/-- The example environment with a parser that reports 1500 messages and hands 1500 rendered
units to the handler. -/
def exampleEnv1500 : Env :=
  { exampleEnv with
    sessionParse := fun _ _ _ _ _ _ =>
      { count := 1500, units := exampleUnits1500, cancelRequested := false } }

/-- The example environment with a parser that hands over one message made of the `msg`
template. -/
def exampleEnvOneMessage : Env :=
  { exampleEnv with
    sessionParse := fun _ _ _ _ _ _ =>
      { count := 1, units := [[{ name := "msg", values := [] }]], cancelRequested := false } }

/-- A freshly constructed exporter. -/
def exampleExporter : Exporter :=
  Exporter.new "work" "backup" "out"

/-- An exporter in text mode (for `exampleEnv`) with a `frame` and a `msg` template loaded. -/
def exampleTextExporter : Exporter :=
  { Exporter.new "work" "backup" "out" with
    m_options := 1,
    m_templates :=
      [("frame", "<p>%%BODY%%</p><script>%%JSONDATA%%</script>"), ("msg", "hi")] }

/-- An exporter with a notifier whose output root does not exist in `exampleEnv`. -/
def exampleExporterNoOutput : Exporter :=
  setNotifier (Exporter.new "work" "backup" "nowhere")

/-- The example environment with a primary backup index that fails to load. -/
def exampleEnvNoIndex : Env :=
  { exampleEnv with iTunesDbLoad := false }

/-- The example environment with the single account Alice (`u1`); as in `exampleEnv` no
directory can be created, neither under the resolved name nor under the hash. -/
def exampleEnvOneAccount : Env :=
  { exampleEnv with loginInfo2Parse := some [exampleFriend "u1" "Alice"] }

/-- A subscription conversation for the examples. -/
def exampleSubscription (usrName displayName : String) : Session :=
  { exampleSession usrName displayName with subscription := true }

/-- The example environment in which every directory exists and the parser hands over one
message for every conversation. -/
def exampleEnvExporting : Env :=
  { exampleEnvOneMessage with existsDirectory := fun _ _ => true }

/-- Two accounts for the examples: Alice (`A`) with the conversations `C1` and `C2`, Bob (`B`)
with the conversation `C3`. Every directory exists and the parser hands over one message for
every conversation. -/
def exampleEnvTwoAccounts : Env :=
  { exampleEnvExporting with
    loginInfo2Parse := some [exampleFriend "A" "Alice", exampleFriend "B" "Bob"],
    sessionsParse := fun user _ =>
      if user.usrName == "A" then [exampleSession "C1" "Carol", exampleSession "C2" "Dave"]
      else [exampleSession "C3" "Erin"] }

/-- The two accounts of `exampleEnvTwoAccounts`, with a `cancel()` from another thread arriving
while the parser works on the first conversation that is exported. -/
def exampleEnvCancelled : Env :=
  { exampleEnvTwoAccounts with
    sessionParse := fun _ _ _ _ _ _ =>
      { count := 1, units := [[{ name := "msg", values := [] }]], cancelRequested := true } }

/-! ## The filter, in the words of the specification -/

/-- The account is selected by the filter map `F`: an empty map selects every account, any other
map the accounts whose identifier is one of its keys. -/
def accountSelected (F : List (String × Finset String)) (account : String) : Bool :=
  F.isEmpty || (mapFind F account).isSome

/-- The conversation of the account is selected by the filter map `F`: an empty map selects
every conversation, any other map the conversations whose identifier is in the set stored for
the account. -/
def sessionSelected (F : List (String × Finset String)) (account session : String) : Bool :=
  F.isEmpty ||
    (match mapFind F account with
     | none => false
     | some allowed => decide (session ∈ allowed))

/-- The history `calls` of export steps respects the filter map `F`: every `exportUser` is for a
selected account and every `exportSession` is for a selected conversation of the account of the
latest `exportUser` (`current`, none at the start of a run). -/
def callsRespectFilter (F : List (String × Finset String)) : Option String → List Call → Bool
  | _, [] => true
  | _, Call.exportUser account :: calls =>
    accountSelected F account && callsRespectFilter F (some account) calls
  | none, Call.exportSession _ :: _ => false
  | some account, Call.exportSession session :: calls =>
    sessionSelected F account session && callsRespectFilter F (some account) calls

/-- An exporter with a notifier and the filter map that restricts account `A` to the
conversation `C1`. -/
def exampleExporterFiltered : Exporter :=
  { setNotifier exampleExporter with m_usersAndSessions := [("A", {"C1"})] }

-- Theorems

/-! ## Decimal names are injective -/

theorem digitChar_toNat (m : Nat) (h : m < 10) : (Nat.digitChar m).toNat - 48 = m := by
  interval_cases m <;> rfl

theorem toDigitsCore_value (fuel : Nat) : ∀ (n : Nat) (ds : List Char), n < fuel →
    (Nat.toDigitsCore 10 fuel n ds).foldl (fun a c => a * 10 + (c.toNat - 48)) 0 =
      ds.foldl (fun a c => a * 10 + (c.toNat - 48)) n := by
  induction fuel with
  | zero => intro n ds h; omega
  | succ fuel ih =>
    intro n ds h
    simp only [Nat.toDigitsCore]
    split
    · have hn : n % 10 = n := by omega
      simp only [List.foldl_cons, hn]
      rw [digitChar_toNat n (by omega)]
      simp
    · rw [ih (n / 10) _ (by omega)]
      simp only [List.foldl_cons]
      rw [digitChar_toNat (n % 10) (by omega)]
      congr 1
      omega

theorem toString_nat_injective (a b : Nat) (h : toString a = toString b) : a = b := by
  have h1 : Nat.toDigits 10 a = Nat.toDigits 10 b := by
    have := congrArg String.data h
    simpa [toString, Nat.repr] using this
  have ha := toDigitsCore_value (a + 1) a [] (by omega)
  have hb := toDigitsCore_value (b + 1) b [] (by omega)
  simp only [Nat.toDigits] at h1
  rw [h1] at ha
  simp at ha hb
  omega

theorem suffix_name_injective (base : String) (a b : Nat)
    (h : base ++ "_" ++ toString a = base ++ "_" ++ toString b) : a = b := by
  apply toString_nat_injective
  have := congrArg String.data h
  simp only [String.data_append, List.append_cancel_left_eq] at this
  exact String.ext this

/-! ## The suffix loop -/

theorem suffixLoop_some (E : Finset String) (base : String) :
    ∀ (fuel idx : Nat) (n : String), suffixLoop E base fuel idx = some n →
      ∃ k, idx < k ∧ k ≤ idx + fuel ∧ n = base ++ "_" ++ toString k ∧ n ∉ E ∧
        ∀ j, idx < j → j < k → base ++ "_" ++ toString j ∈ E := by
  intro fuel
  induction fuel with
  | zero => intro idx n h; simp [suffixLoop] at h
  | succ fuel ih =>
    intro idx n h
    simp only [suffixLoop] at h
    split at h
    · rename_i hfree
      injection h with h
      refine ⟨idx + 1, by omega, by omega, h.symm, h ▸ hfree, ?_⟩
      intro j h1 h2
      omega
    · rename_i hused
      obtain ⟨k, h1, h2, h3, h4, h5⟩ := ih (idx + 1) n h
      refine ⟨k, by omega, by omega, h3, h4, ?_⟩
      intro j hj1 hj2
      by_cases hj : j = idx + 1
      · subst hj
        simpa using hused
      · exact h5 j (by omega) hj2

theorem suffixLoop_none (E : Finset String) (base : String) :
    ∀ (fuel idx : Nat), suffixLoop E base fuel idx = none →
      ∀ j, idx < j → j ≤ idx + fuel → base ++ "_" ++ toString j ∈ E := by
  intro fuel
  induction fuel with
  | zero => intro idx _ j h1 h2; omega
  | succ fuel ih =>
    intro idx h j h1 h2
    simp only [suffixLoop] at h
    split at h
    · simp at h
    · rename_i hused
      by_cases hj : j = idx + 1
      · subst hj
        simpa using hused
      · exact ih (idx + 1) h j (by omega) (by omega)

/-- With fewer used names than increments left, the suffix loop finds a free name. -/
theorem suffixLoop_isSome (E : Finset String) (base : String) (fuel idx : Nat)
    (h : E.card < fuel) : ∃ n, suffixLoop E base fuel idx = some n := by
  cases hres : suffixLoop E base fuel idx with
  | some n => exact ⟨n, rfl⟩
  | none =>
    exfalso
    have hall := suffixLoop_none E base fuel idx hres
    have hsub : (Finset.Ioc idx (idx + fuel)).image (fun j => base ++ "_" ++ toString j) ⊆ E := by
      intro x hx
      obtain ⟨j, hj, rfl⟩ := Finset.mem_image.mp hx
      rw [Finset.mem_Ioc] at hj
      exact hall j hj.1 hj.2
    have hcard := Finset.card_le_card hsub
    rw [Finset.card_image_of_injective _ (fun a b hab => suffix_name_injective base a b hab)]
      at hcard
    simp at hcard
    omega

/-! ## Name resolution -/

/-- The candidate loop: its result for every list of remaining candidates. -/
theorem buildFileNameLoop_spec (env : Env) (user : Friend) (E : Finset String)
    (hE : E.card < INT_MAX - 1) : ∀ names : List String,
    ∃ ok named E', buildFileNameLoop env user E names = some (ok, named, E') ∧
      ((∀ c ∈ names.map env.removeInvalidCharsForFileName, env.isValidFileName c = false) →
        ok = false ∧ named = user ∧ E' = E) ∧
      (∀ base, (names.map env.removeInvalidCharsForFileName).find? env.isValidFileName
          = some base →
        ok = true ∧ named = { user with outputFileName := named.outputFileName } ∧
        E' = insert named.outputFileName E ∧
        (base ∉ E → named.outputFileName = base) ∧
        (base ∈ E → ∃ k, 2 ≤ k ∧ named.outputFileName = base ++ "_" ++ toString k ∧
          base ++ "_" ++ toString k ∉ E ∧
          ∀ j, 2 ≤ j → j < k → base ++ "_" ++ toString j ∈ E)) := by
  intro names
  induction names with
  | nil => exact ⟨false, user, E, rfl, fun _ => ⟨rfl, rfl, rfl⟩, by simp⟩
  | cons name names ih =>
    by_cases hv : env.isValidFileName (env.removeInvalidCharsForFileName name) = true
    · by_cases hm : env.removeInvalidCharsForFileName name ∈ E
      · obtain ⟨n, hn⟩ :=
          suffixLoop_isSome E (env.removeInvalidCharsForFileName name) (INT_MAX - 1) 1 hE
        obtain ⟨k, h1, _, h3, h4, h5⟩ := suffixLoop_some E _ _ _ _ hn
        refine ⟨true, { user with outputFileName := n }, insert n E, ?_, ?_, ?_⟩
        · simp [buildFileNameLoop, hv, hm, hn]
        · intro hall
          have := hall (env.removeInvalidCharsForFileName name) (by simp)
          simp [hv] at this
        · intro base hbase
          simp only [List.map_cons, List.find?_cons, hv] at hbase
          injection hbase with hbase
          subst hbase
          refine ⟨rfl, rfl, rfl, fun h => absurd hm h, fun _ => ⟨k, by omega, h3, h3 ▸ h4, ?_⟩⟩
          intro j hj1 hj2
          exact h5 j (by omega) hj2
      · refine ⟨true, { user with outputFileName := env.removeInvalidCharsForFileName name },
          insert (env.removeInvalidCharsForFileName name) E, ?_, ?_, ?_⟩
        · simp [buildFileNameLoop, hv, hm]
        · intro hall
          have := hall (env.removeInvalidCharsForFileName name) (by simp)
          simp [hv] at this
        · intro base hbase
          simp only [List.map_cons, List.find?_cons, hv] at hbase
          injection hbase with hbase
          subst hbase
          exact ⟨rfl, rfl, rfl, fun _ => rfl, fun h => absurd h hm⟩
    · obtain ⟨ok, named, E', h1, h2, h3⟩ := ih
      refine ⟨ok, named, E', ?_, ?_, ?_⟩
      · simp [buildFileNameLoop, hv, h1]
      · intro hall
        exact h2 (fun c hc => hall c (by simp only [List.map_cons, List.mem_cons]; exact Or.inr hc))
      · intro base hbase
        have hv' : env.isValidFileName (env.removeInvalidCharsForFileName name) = false := by
          simpa using hv
        simp only [List.map_cons, List.find?_cons, hv'] at hbase
        exact h3 base hbase

/-- A single call: it is defined, the set only grows by the assigned name, and a name assigned by
a successful call is new. -/
theorem buildFileNameForUser_fresh (env : Env) (user : Friend) (E : Finset String)
    (hE : E.card < INT_MAX - 1) :
    ∃ ok named E', buildFileNameForUser env user E = some (ok, named, E') ∧
      E ⊆ E' ∧ E'.card ≤ E.card + 1 ∧
      (ok = true → named.outputFileName ∉ E ∧ named.outputFileName ∈ E') := by
  obtain ⟨ok, named, E', h1, h2, h3⟩ :=
    buildFileNameLoop_spec env user E hE [user.displayName, user.usrName, user.hash]
  refine ⟨ok, named, E', h1, ?_⟩
  cases hf : ([user.displayName, user.usrName, user.hash].map
      env.removeInvalidCharsForFileName).find? env.isValidFileName with
  | none =>
    rw [List.find?_eq_none] at hf
    obtain ⟨rfl, _, rfl⟩ := h2 (fun c hc => by simpa using hf c hc)
    exact ⟨Finset.Subset.refl _, by omega, by simp⟩
  | some base =>
    obtain ⟨_, _, h6, h7, h8⟩ := h3 base hf
    subst h6
    refine ⟨Finset.subset_insert _ _, Finset.card_insert_le _ _, fun _ => ⟨?_, by simp⟩⟩
    by_cases hb : base ∈ E
    · obtain ⟨k, _, hk2, hk3, _⟩ := h8 hb
      rw [hk2]; exact hk3
    · rw [h7 hb]; exact hb

theorem assignedNames_cons (ok : Bool) (named : Friend) (results : List (Bool × Friend)) :
    assignedNames ((ok, named) :: results) =
      if ok = true then named.outputFileName :: assignedNames results
      else assignedNames results := by
  cases ok <;> simp [assignedNames]

/-- A sequence of calls on one set: defined, and the assigned names are new and distinct. -/
theorem buildFileNames_spec (env : Env) : ∀ (users : List Friend) (E : Finset String),
    E.card + users.length < INT_MAX →
    ∃ results E', buildFileNames env users E = some (results, E') ∧
      results.length = users.length ∧ E ⊆ E' ∧ E'.card ≤ E.card + users.length ∧
      (assignedNames results).Nodup ∧
      ∀ n ∈ assignedNames results, n ∉ E ∧ n ∈ E' := by
  intro users
  induction users with
  | nil =>
    intro E _
    exact ⟨[], E, rfl, rfl, Finset.Subset.refl _, by simp, by simp [assignedNames],
      by simp [assignedNames]⟩
  | cons user users ih =>
    intro E hE
    simp only [List.length_cons] at hE
    obtain ⟨ok, named, E1, h1, hsub1, hcard1, hfresh⟩ :=
      buildFileNameForUser_fresh env user E (by simp only [INT_MAX] at hE ⊢; omega)
    obtain ⟨results, E', h2, hlen, hsub2, hcard2, hnodup, hnew⟩ := ih E1 (by omega)
    refine ⟨(ok, named) :: results, E', ?_, by simp [hlen], hsub1.trans hsub2,
      by simp only [List.length_cons]; omega, ?_, ?_⟩
    · simp [buildFileNames, h1, h2]
    · rw [assignedNames_cons]
      split
      · rename_i hok
        refine List.nodup_cons.mpr ⟨fun hmem => ?_, hnodup⟩
        exact (hnew _ hmem).1 (hfresh hok).2
      · exact hnodup
    · intro n hn
      rw [assignedNames_cons] at hn
      split at hn
      · rename_i hok
        rcases List.mem_cons.mp hn with rfl | hn
        · exact ⟨(hfresh hok).1, hsub2 (hfresh hok).2⟩
        · exact ⟨fun h => (hnew n hn).1 (hsub1 h), (hnew n hn).2⟩
      · exact ⟨fun h => (hnew n hn).1 (hsub1 h), (hnew n hn).2⟩

/-- C1. Name Resolver uniqueness: when the entities of a list are passed one after another to
`buildFileNameForUser` with one used-names set (any starting set; the set stays below the range
of the `int` suffix counter), every call is defined, the names assigned by the successful calls
are pairwise distinct, none of them was in the starting set, all are in the final set, and at
each single call the assigned name was not in the set before that call and is in it afterwards. -/
theorem C1_name_resolver_unique (env : Env) (users : List Friend) (E : Finset String)
    (hE : E.card + users.length < INT_MAX) :
    ∃ results E', buildFileNames env users E = some (results, E') ∧
      results.length = users.length ∧
      (assignedNames results).Nodup ∧
      (∀ n ∈ assignedNames results, n ∉ E ∧ n ∈ E') ∧
      ∀ before user after, users = before ++ user :: after →
        ∃ resultsBefore Ebefore ok named Eafter,
          buildFileNames env before E = some (resultsBefore, Ebefore) ∧
          buildFileNameForUser env user Ebefore = some (ok, named, Eafter) ∧
          (ok = true → named.outputFileName ∉ Ebefore ∧ named.outputFileName ∈ Eafter) := by
  obtain ⟨results, E', h1, h2, _, _, h5, h6⟩ := buildFileNames_spec env users E hE
  refine ⟨results, E', h1, h2, h5, h6, ?_⟩
  intro before user after hsplit
  have hlen : users.length = before.length + (after.length + 1) := by
    rw [hsplit]; simp
  obtain ⟨rb, Eb, hb1, _, _, hb4, _, _⟩ := buildFileNames_spec env before E (by omega)
  obtain ⟨ok, named, Ea, ha1, _, _, ha4⟩ :=
    buildFileNameForUser_fresh env user Eb (by simp only [INT_MAX] at hE ⊢; omega)
  exact ⟨rb, Eb, ok, named, Ea, hb1, ha1, ha4⟩

theorem C1_name_resolver_unique_witness :
    (∅ : Finset String).card +
        [exampleFriend "u1" "Alice", exampleFriend "u2" "Alice"].length < INT_MAX ∧
      buildFileNames exampleEnv [exampleFriend "u1" "Alice", exampleFriend "u2" "Alice"] ∅ =
        some ([(true, { exampleFriend "u1" "Alice" with outputFileName := "Alice" }),
               (true, { exampleFriend "u2" "Alice" with outputFileName := "Alice_2" })],
              insert "Alice_2" {"Alice"}) ∧
      ∃ results E',
        buildFileNames exampleEnv [exampleFriend "u1" "Alice", exampleFriend "u2" "Alice"] ∅ =
          some (results, E') ∧
        (assignedNames results).Nodup := by
  refine ⟨by decide, rfl, ?_⟩
  obtain ⟨results, E', h1, _, h3, _⟩ :=
    C1_name_resolver_unique exampleEnv
      [exampleFriend "u1" "Alice", exampleFriend "u2" "Alice"] ∅ (by decide)
  exact ⟨results, E', h1, h3⟩

/-- C2. Name Resolver result: for every entity and used-names set (below the range of the `int`
suffix counter) the call is defined; it succeeds if and only if one of the stripped candidates
display name, identifier, hash is a valid file name; when `base` is the first valid stripped
candidate in that order, the entity gets the assigned name and the set gains it, where the
assigned name is `base` itself if `base` is not in the set and otherwise `base_k` for the least
`k ≥ 2` with `base_k` not in the set. -/
theorem C2_name_resolver_result (env : Env) (user : Friend) (E : Finset String)
    (hE : E.card < INT_MAX - 1) :
    ∃ ok named E', buildFileNameForUser env user E = some (ok, named, E') ∧
      (ok = true ↔
        ∃ c ∈ [user.displayName, user.usrName, user.hash].map
          env.removeInvalidCharsForFileName, env.isValidFileName c = true) ∧
      ∀ base,
        ([user.displayName, user.usrName, user.hash].map
          env.removeInvalidCharsForFileName).find? env.isValidFileName = some base →
        ok = true ∧ named = { user with outputFileName := named.outputFileName } ∧
        E' = insert named.outputFileName E ∧
        (base ∉ E → named.outputFileName = base) ∧
        (base ∈ E → ∃ k, 2 ≤ k ∧ named.outputFileName = base ++ "_" ++ toString k ∧
          base ++ "_" ++ toString k ∉ E ∧
          ∀ j, 2 ≤ j → j < k → base ++ "_" ++ toString j ∈ E) := by
  obtain ⟨ok, named, E', h1, h2, h3⟩ :=
    buildFileNameLoop_spec env user E hE [user.displayName, user.usrName, user.hash]
  refine ⟨ok, named, E', h1, ⟨fun hok => ?_, fun hex => ?_⟩, h3⟩
  · by_contra hno
    have hall : ∀ c ∈ [user.displayName, user.usrName, user.hash].map
        env.removeInvalidCharsForFileName, env.isValidFileName c = false := by
      intro c hc
      by_contra hc'
      exact hno ⟨c, hc, by simpa using hc'⟩
    rw [(h2 hall).1] at hok
    exact Bool.noConfusion hok
  · cases hf : ([user.displayName, user.usrName, user.hash].map
        env.removeInvalidCharsForFileName).find? env.isValidFileName with
    | none =>
      rw [List.find?_eq_none] at hf
      obtain ⟨c, hc, hv⟩ := hex
      exact absurd hv (hf c hc)
    | some base => exact (h3 base hf).1

theorem C2_name_resolver_result_witness :
    ({"Alice"} : Finset String).card < INT_MAX - 1 ∧
      buildFileNameForUser exampleEnv (exampleFriend "u1" "Alice") ∅ =
        some (true, { exampleFriend "u1" "Alice" with outputFileName := "Alice" }, {"Alice"}) ∧
      buildFileNameForUser exampleEnv (exampleFriend "u2" "Alice") {"Alice"} =
        some (true, { exampleFriend "u2" "Alice" with outputFileName := "Alice_2" },
          insert "Alice_2" {"Alice"}) ∧
      ∃ ok named E',
        buildFileNameForUser exampleEnv (exampleFriend "u2" "Alice") {"Alice"} =
          some (ok, named, E') ∧ ok = true := by
  refine ⟨by decide, rfl, rfl, ?_⟩
  obtain ⟨ok, named, E', h1, h2, _⟩ :=
    C2_name_resolver_result exampleEnv (exampleFriend "u2" "Alice") {"Alice"} (by decide)
  exact ⟨ok, named, E', h1, h2.mpr ⟨"Alice", by decide, by decide⟩⟩

/-! ## Pagination -/

theorem foldl_append_string (xs : List String) (acc : String) :
    xs.foldl (fun r s => r ++ s) acc = acc ++ xs.foldl (fun r s => r ++ s) "" := by
  induction xs generalizing acc with
  | nil => simp
  | cons x xs ih =>
    simp only [List.foldl_cons]
    rw [ih (acc ++ x), ih ("" ++ x)]
    simp [String.append_assoc]

/-- With the empty delimiter `join` is the concatenation in order. -/
theorem join_empty_delimiter (xs : List String) : join xs "" = String.join xs := by
  induction xs with
  | nil => rfl
  | cons x xs ih =>
    cases xs with
    | nil => simp [join, String.join]
    | cons y ys =>
      simp only [join, String.join, List.foldl_cons] at ih ⊢
      rw [ih, foldl_append_string ys ("" ++ x ++ y), foldl_append_string ys ("" ++ y)]
      simp [String.append_assoc]

theorem collectMessages_length (m_templates : List (String × String)) (m_cancelled : Bool)
    (units : List (List TemplateValues)) :
    (collectMessages m_templates m_cancelled units).length = units.length := by
  have h : ∀ (init : List String),
      (units.foldl
        (fun messages tvs => (exportMessage m_templates m_cancelled tvs messages).1) init).length =
        init.length + units.length := by
    induction units with
    | nil => intro init; simp
    | cons u us ih =>
      intro init
      simp only [List.foldl_cons, List.length_cons]
      rw [ih]
      simp [exportMessage]
      omega
  simpa [collectMessages] using h []

/-- The document written by `exportSession` when the parser returns a positive count and the
handler collected at least one message. -/
theorem exportSession_writes (env : Env) (ex : Exporter) (user : Friend) (friends : Friends)
    (session : Session) (userBase outputBase : String)
    (hdb : session.dbFileEmpty = false)
    (hcount : 0 < (env.sessionParse user friends ex.m_options userBase outputBase session).count)
    (hne : collectMessages ex.m_templates ex.m_cancelled
      (env.sessionParse user friends ex.m_options userBase outputBase session).units ≠ []) :
    (exportSession env ex user friends session userBase outputBase).2.actions.getLast? =
      some (Action.writeFile
        (env.combinePath [outputBase, session.outputFileName ++ "." ++ ex.m_extName])
        (sessionDocument env ex.m_templates ex.m_options session
          (collectMessages ex.m_templates ex.m_cancelled
            (env.sessionParse user friends ex.m_options userBase outputBase session).units))) := by
  by_cases h1 : (ex.m_options &&& env.SPO_IGNORE_AVATAR) = 0 <;>
  by_cases h2 : (ex.m_options &&& env.SPO_IGNORE_EMOJI) = 0 <;>
  simp [exportSession, Exporter.call, Exporter.act, hdb, h1, h2, hcount, hne]

/-- The pagination block on an arbitrary message list. -/
theorem paginate_spec (env : Env) (m_options : Nat) (messages : List String) :
    ((m_options &&& env.SPO_TEXT_MODE) = env.SPO_TEXT_MODE →
      (paginate env m_options messages).body = String.join messages ∧
      (paginate env m_options messages).jsonMsgs = [] ∧
      (paginate env m_options messages).moreMsgs = "") ∧
    (¬ (m_options &&& env.SPO_TEXT_MODE) = env.SPO_TEXT_MODE → messages.length ≤ 1000 →
      (paginate env m_options messages).body = String.join messages ∧
      (paginate env m_options messages).jsonMsgs = [] ∧
      (paginate env m_options messages).moreMsgs = "[]") ∧
    (¬ (m_options &&& env.SPO_TEXT_MODE) = env.SPO_TEXT_MODE → 1000 < messages.length →
      (paginate env m_options messages).body = String.join (messages.take 1000) ∧
      (messages.take 1000).length = 1000 ∧
      (paginate env m_options messages).jsonMsgs = messages.drop 1000 ∧
      (paginate env m_options messages).jsonMsgs.length = messages.length - 1000 ∧
      messages.take 1000 ++ (paginate env m_options messages).jsonMsgs = messages ∧
      (paginate env m_options messages).moreMsgs = env.jsonWrite (messages.drop 1000)) := by
  refine ⟨fun ht => ?_, fun ht hn => ?_, fun ht hn => ?_⟩
  · simp [paginate, ht, join_empty_delimiter]
  · simp [paginate, ht, hn, join_empty_delimiter]
  · have hn' : ¬ messages.length ≤ 1000 := by omega
    have hn'' : ¬ 1000 = messages.length := by omega
    simp [paginate, ht, hn', hn'', join_empty_delimiter]
    omega

/-- C3. Pagination split in `exportSession`: when the conversation has a message database, the
parser returns a positive count and the handler collected a non-empty message list of length n,
`exportSession` writes the `frame` document with the inline body and the payload of the
pagination block, where: if text-mode is on or n ≤ 1000, the inline body is the concatenation of
all n messages in order and the payload holds no message (no array entry, payload string empty
or the empty array); if n > 1000 and text-mode is off, the inline body is the concatenation of
exactly the first 1000 messages and the payload array is exactly the remaining n - 1000 messages
in their order, so that inline entries followed by payload entries are the collected list. -/
theorem C3_pagination_split (env : Env) (ex : Exporter) (user : Friend) (friends : Friends)
    (session : Session) (userBase outputBase : String)
    (hdb : session.dbFileEmpty = false)
    (hcount : 0 < (env.sessionParse user friends ex.m_options userBase outputBase session).count)
    (hne : collectMessages ex.m_templates ex.m_cancelled
      (env.sessionParse user friends ex.m_options userBase outputBase session).units ≠ []) :
    let messages := collectMessages ex.m_templates ex.m_cancelled
      (env.sessionParse user friends ex.m_options userBase outputBase session).units
    let page := paginate env ex.m_options messages
    (exportSession env ex user friends session userBase outputBase).2.actions.getLast? =
      some (Action.writeFile
        (env.combinePath [outputBase, session.outputFileName ++ "." ++ ex.m_extName])
        (replaceAll
          (replaceAll
            (replaceAll (getTemplate ex.m_templates "frame") "%%DISPLAYNAME%%"
              session.displayName)
            "%%BODY%%" page.body)
          "%%JSONDATA%%" page.moreMsgs)) ∧
    ((ex.m_options &&& env.SPO_TEXT_MODE) = env.SPO_TEXT_MODE ∨ messages.length ≤ 1000 →
      page.body = String.join messages ∧ page.jsonMsgs = [] ∧
      (page.moreMsgs = "" ∨ page.moreMsgs = "[]")) ∧
    (¬ (ex.m_options &&& env.SPO_TEXT_MODE) = env.SPO_TEXT_MODE ∧ 1000 < messages.length →
      page.body = String.join (messages.take 1000) ∧
      (messages.take 1000).length = 1000 ∧
      page.jsonMsgs = messages.drop 1000 ∧
      page.jsonMsgs.length = messages.length - 1000 ∧
      messages.take 1000 ++ page.jsonMsgs = messages ∧
      page.moreMsgs = env.jsonWrite page.jsonMsgs) := by
  intro messages page
  obtain ⟨h1, h2, h3⟩ := paginate_spec env ex.m_options messages
  refine ⟨exportSession_writes env ex user friends session userBase outputBase hdb hcount hne,
    ?_, ?_⟩
  · intro h
    by_cases ht : (ex.m_options &&& env.SPO_TEXT_MODE) = env.SPO_TEXT_MODE
    · exact ⟨(h1 ht).1, (h1 ht).2.1, Or.inl (h1 ht).2.2⟩
    · have hn : messages.length ≤ 1000 := h.resolve_left ht
      exact ⟨(h2 ht hn).1, (h2 ht hn).2.1, Or.inr (h2 ht hn).2.2⟩
  · intro h
    obtain ⟨a, b, c, d, e, f⟩ := h3 h.1 h.2
    exact ⟨a, b, c, d, e, by rw [f, ← c]⟩

theorem C3_pagination_split_witness :
    (exampleSession "c1" "Bob").dbFileEmpty = false ∧
    0 < (exampleEnv1500.sessionParse (exampleFriend "u1" "Alice") [] exampleExporter.m_options
      "ub" "out/Alice" (exampleSession "c1" "Bob")).count ∧
    ¬ (exampleExporter.m_options &&& exampleEnv1500.SPO_TEXT_MODE) =
      exampleEnv1500.SPO_TEXT_MODE ∧
    ∃ messages,
      messages = collectMessages exampleExporter.m_templates exampleExporter.m_cancelled
        (exampleEnv1500.sessionParse (exampleFriend "u1" "Alice") [] exampleExporter.m_options
          "ub" "out/Alice" (exampleSession "c1" "Bob")).units ∧
      messages.length = 1500 ∧
      (messages.take 1000).length = 1000 ∧
      (paginate exampleEnv1500 exampleExporter.m_options messages).jsonMsgs.length = 500 := by
  have hlen : (collectMessages exampleExporter.m_templates exampleExporter.m_cancelled
      (exampleEnv1500.sessionParse (exampleFriend "u1" "Alice") [] exampleExporter.m_options
        "ub" "out/Alice" (exampleSession "c1" "Bob")).units).length = 1500 := by
    rw [collectMessages_length]
    simp only [exampleEnv1500, exampleUnits1500, List.length_replicate]
  have hmain := C3_pagination_split exampleEnv1500 exampleExporter
    (exampleFriend "u1" "Alice") [] (exampleSession "c1" "Bob") "ub" "out/Alice" rfl
    (by decide) (by intro h; rw [h] at hlen; exact absurd hlen (by decide))
  obtain ⟨_, h5, _, h7, _⟩ := hmain.2.2 ⟨by decide, by rw [hlen]; decide⟩
  rw [hlen] at h7
  exact ⟨rfl, by decide, by decide, _, rfl, hlen, h5, h7⟩

/-- C4 (as amended). Payload value in text-mode: whenever `exportSession` writes a conversation
document while text-mode is enabled, the value substituted for the placeholder `%%JSONDATA%%` is
the empty string and the inline body is the concatenation of all collected messages; the
empty-array sentinel `[]` is the value substituted when text-mode is off and at most 1000
messages were collected. -/
theorem C4_text_mode_payload (env : Env) (ex : Exporter) (user : Friend) (friends : Friends)
    (session : Session) (userBase outputBase : String)
    (hdb : session.dbFileEmpty = false)
    (hcount : 0 < (env.sessionParse user friends ex.m_options userBase outputBase session).count)
    (hne : collectMessages ex.m_templates ex.m_cancelled
      (env.sessionParse user friends ex.m_options userBase outputBase session).units ≠ []) :
    let messages := collectMessages ex.m_templates ex.m_cancelled
      (env.sessionParse user friends ex.m_options userBase outputBase session).units
    let document := fun (moreMsgs : String) =>
      Action.writeFile
        (env.combinePath [outputBase, session.outputFileName ++ "." ++ ex.m_extName])
        (replaceAll
          (replaceAll
            (replaceAll (getTemplate ex.m_templates "frame") "%%DISPLAYNAME%%"
              session.displayName)
            "%%BODY%%" (String.join messages))
          "%%JSONDATA%%" moreMsgs)
    ((ex.m_options &&& env.SPO_TEXT_MODE) = env.SPO_TEXT_MODE →
      (exportSession env ex user friends session userBase outputBase).2.actions.getLast? =
        some (document "")) ∧
    (¬ (ex.m_options &&& env.SPO_TEXT_MODE) = env.SPO_TEXT_MODE → messages.length ≤ 1000 →
      (exportSession env ex user friends session userBase outputBase).2.actions.getLast? =
        some (document "[]")) := by
  intro messages document
  have hw := exportSession_writes env ex user friends session userBase outputBase hdb hcount hne
  obtain ⟨h1, h2, _⟩ := paginate_spec env ex.m_options messages
  refine ⟨fun ht => ?_, fun ht hn => ?_⟩
  · rw [hw]
    simp only [sessionDocument, document]
    rw [(h1 ht).1, (h1 ht).2.2]
  · rw [hw]
    simp only [sessionDocument, document]
    rw [(h2 ht hn).1, (h2 ht hn).2.2]

theorem C4_text_mode_payload_witness :
    (exampleSession "c1" "Bob").dbFileEmpty = false ∧
    (exampleTextExporter.m_options &&& exampleEnvOneMessage.SPO_TEXT_MODE) =
      exampleEnvOneMessage.SPO_TEXT_MODE ∧
    (exportSession exampleEnvOneMessage exampleTextExporter (exampleFriend "u1" "Alice") []
      (exampleSession "c1" "Bob") "ub" "out/Alice").2.actions.getLast? =
      some (Action.writeFile
        (exampleEnvOneMessage.combinePath ["out/Alice", "c1" ++ "." ++ "html"])
        (replaceAll
          (replaceAll
            (replaceAll "<p>%%BODY%%</p><script>%%JSONDATA%%</script>" "%%DISPLAYNAME%%" "Bob")
            "%%BODY%%" (String.join ["hi"]))
          "%%JSONDATA%%" "")) :=
  ⟨rfl, by decide,
    (C4_text_mode_payload exampleEnvOneMessage exampleTextExporter (exampleFriend "u1" "Alice") []
      (exampleSession "c1" "Bob") "ub" "out/Alice" rfl (by decide) (by decide)).1 (by decide)⟩

/-- C4 as stated fails: with text-mode enabled and one collected message, the document written
by `exportSession` has the empty string, not the sentinel `[]`, in place of `%%JSONDATA%%`. -/
theorem C4_text_mode_payload_counterexample :
    (exampleTextExporter.m_options &&& exampleEnvOneMessage.SPO_TEXT_MODE) =
      exampleEnvOneMessage.SPO_TEXT_MODE ∧
    (exportSession exampleEnvOneMessage exampleTextExporter (exampleFriend "u1" "Alice") []
      (exampleSession "c1" "Bob") "ub" "out/Alice").2.actions.getLast? =
      some (Action.writeFile "out/Alice/c1.html" "<p>hi</p><script></script>") ∧
    (paginate exampleEnvOneMessage exampleTextExporter.m_options ["hi"]).moreMsgs = "" ∧
    (paginate exampleEnvOneMessage exampleTextExporter.m_options ["hi"]).moreMsgs ≠ "[]" := by
  refine ⟨by decide, by decide, by decide, by decide⟩

/-! ## Template rendering -/

theorem isPrefixOf_marker (d : List Char) :
    ['%', '%'].isPrefixOf d = true ↔ d[0]? = some '%' ∧ d[1]? = some '%' := by
  match d with
  | [] => simp
  | [a] => simp [List.isPrefixOf]
  | a :: b :: rest =>
    simp only [List.isPrefixOf, Bool.and_true, Bool.and_eq_true, beq_iff_eq,
      List.getElem?_cons_zero, List.getElem?_cons_succ, Option.some.injEq]
    constructor
    · rintro ⟨h1, h2⟩; exact ⟨h1.symm, h2.symm⟩
    · rintro ⟨h1, h2⟩; exact ⟨h1.symm, h2.symm⟩

theorem occursAt_marker (s : String) (i : Nat) :
    occursAt s "%%" i = true ↔ markerAt s i := by
  simp only [occursAt, markerAt, Bool.and_eq_true, decide_eq_true_eq]
  rw [isPrefixOf_marker]
  simp only [List.getElem?_drop, Nat.add_zero]
  constructor
  · rintro ⟨_, h⟩; exact h
  · intro h
    refine ⟨?_, h⟩
    have := h.1
    by_contra hlt
    rw [List.getElem?_eq_none (by omega)] at this
    exact Option.noConfusion this

theorem find_some (s : String) (pos i : Nat) (h : find s "%%" pos = some i) :
    pos ≤ i ∧ markerAt s i ∧ ∀ j, pos ≤ j → j < i → ¬ markerAt s j := by
  simp only [find, List.find?_range_eq_some, Bool.and_eq_true, decide_eq_true_eq,
    List.mem_range] at h
  obtain ⟨⟨h1, h2⟩, _, h4⟩ := h
  refine ⟨h1, (occursAt_marker s i).mp h2, ?_⟩
  intro j hj1 hj2 hm
  have := h4 j hj2
  simp [hj1, (occursAt_marker s j).mpr hm] at this

theorem find_none (s : String) (pos : Nat) (h : find s "%%" pos = none) :
    ∀ j, pos ≤ j → ¬ markerAt s j := by
  simp only [find, List.find?_range_eq_none] at h
  intro j hj hm
  have hocc := (occursAt_marker s j).mpr hm
  have hlen : j < s.data.length + 1 := by
    simp only [occursAt, Bool.and_eq_true, decide_eq_true_eq] at hocc
    omega
  have := h j hlen
  simp [hj, hocc] at this

theorem markerAt_lt_length (s : String) (i : Nat) (h : markerAt s i) : i + 2 ≤ s.data.length := by
  have h2 := h.2
  by_contra hlt
  rw [List.getElem?_eq_none (by omega)] at h2
  exact Option.noConfusion h2

theorem erase_getElem?_lt (s : String) (pos len i : Nat) (hpos : pos ≤ s.data.length)
    (hi : i < pos) : (erase s pos len).data[i]? = s.data[i]? := by
  simp only [erase]
  rw [List.getElem?_append_left (by simp only [List.length_take]; omega),
    List.getElem?_take_of_lt hi]

theorem erase_length (s : String) (pos len : Nat) (h : pos + len ≤ s.data.length) :
    (erase s pos len).data.length + len = s.data.length := by
  simp only [erase, List.length_append, List.length_take, List.length_drop]
  omega

/-- The cleanup loop, entered at `pos` with no marker before `pos`, leaves through one of its two
exits before `content.length + 1` evaluations of its condition, and the string it leaves has no
two markers two or more positions apart. -/
theorem cleanupLoop_spec : ∀ (fuel : Nat) (content : String) (pos : Nat),
    content.data.length < fuel → (∀ i, i < pos → ¬ markerAt content i) →
    ∃ r, cleanupLoop fuel content pos = some r ∧
      ¬ ∃ i j, i + 2 ≤ j ∧ markerAt r i ∧ markerAt r j := by
  intro fuel
  induction fuel with
  | zero => intro content pos h; omega
  | succ fuel ih =>
    intro content pos hlen hinv
    cases h1 : find content "%%" pos with
    | none =>
      refine ⟨content, by simp only [cleanupLoop, h1], ?_⟩
      rintro ⟨i, j, _, hi, _⟩
      by_cases hlt : i < pos
      · exact hinv i hlt hi
      · exact find_none content pos h1 i (by omega) hi
    | some p =>
      obtain ⟨hp1, hp2, hp3⟩ := find_some content pos p h1
      have hbefore : ∀ i, i < p → ¬ markerAt content i := by
        intro i hi
        by_cases hlt : i < pos
        · exact hinv i hlt
        · exact hp3 i (by omega) hi
      cases h2 : find content "%%" (p + 2) with
      | none =>
        refine ⟨content, by simp only [cleanupLoop, h1, h2], ?_⟩
        rintro ⟨i, j, hij, hi, hj⟩
        have hip : p ≤ i := by
          by_contra hlt
          exact hbefore i (by omega) hi
        exact find_none content (p + 2) h2 j (by omega) hj
      | some q =>
        obtain ⟨hq1, hq2, _⟩ := find_some content (p + 2) q h2
        have hqlen := markerAt_lt_length content q hq2
        have hel := erase_length content p (q + 2 - p) (by omega)
        simp only [cleanupLoop, h1, h2]
        apply ih (erase content p (q + 2 - p)) p (by omega)
        intro i hi hm
        have hpl : p ≤ content.data.length := by omega
        have e1 := erase_getElem?_lt content p (q + 2 - p) i hpl hi
        by_cases hi1 : i + 1 < p
        · have e2 := erase_getElem?_lt content p (q + 2 - p) (i + 1) hpl hi1
          exact hbefore i hi ⟨e1 ▸ hm.1, e2 ▸ hm.2⟩
        · have hip : i + 1 = p := by omega
          exact hbefore i hi ⟨e1 ▸ hm.1, hip ▸ hp2.1⟩

/-- The cleanup loop of `buildContentFromTemplateValues` terminates: started at 0 on any content
it returns within `content.length + 1` evaluations of its condition. -/
theorem cleanupLoop_terminates (content : String) :
    ∃ r, cleanupLoop (content.data.length + 1) content 0 = some r :=
  let ⟨r, h, _⟩ := cleanupLoop_spec (content.data.length + 1) content 0 (by omega)
    (fun _ hi => absurd hi (Nat.not_lt_zero _))
  ⟨r, h⟩

/-- C5. Template cleanup removes every marker span: for every template set, template identifier
and ordered field list (values containing `%%` included), the cleanup loop of
`buildContentFromTemplateValues` terminates (it returns within length + 1 evaluations of its
condition), its result is the returned string, and the returned string has no positions i and j
with j ≥ i + 2 such that `%%` occurs at both i and j. -/
theorem C5_cleanup_removes_marker_spans (m_templates : List (String × String))
    (values : TemplateValues) :
    (∃ r,
      cleanupLoop
        ((substituteValues (getTemplate m_templates values.name) values.values).data.length + 1)
        (substituteValues (getTemplate m_templates values.name) values.values) 0 = some r ∧
      buildContentFromTemplateValues m_templates values = r) ∧
    ¬ ∃ i j, i + 2 ≤ j ∧
      markerAt (buildContentFromTemplateValues m_templates values) i ∧
      markerAt (buildContentFromTemplateValues m_templates values) j := by
  obtain ⟨r, h1, h2⟩ := cleanupLoop_spec
    ((substituteValues (getTemplate m_templates values.name) values.values).data.length + 1)
    (substituteValues (getTemplate m_templates values.name) values.values) 0 (by omega)
    (fun _ hi => absurd hi (Nat.not_lt_zero _))
  have hb : buildContentFromTemplateValues m_templates values = r := by
    simp only [buildContentFromTemplateValues, h1]
  exact ⟨⟨r, h1, hb⟩, hb ▸ h2⟩

theorem replaceAll_empty_input (search replace : String) : replaceAll "" search replace = "" := by
  simp only [replaceAll]
  split
  · rfl
  · rfl

theorem substituteValues_empty (values : List (String × String)) :
    substituteValues "" values = "" := by
  induction values with
  | nil => rfl
  | cons kv rest ih =>
    obtain ⟨k, v⟩ := kv
    simp only [substituteValues]
    split
    · rw [replaceAll_empty_input]; exact ih
    · exact ih

/-- C6. Template rendering on marker-free markup: when the markup stored for a template
identifier contains no occurrence of the reserved marker `%%`, `buildContentFromTemplateValues`
with an empty field list returns that markup unchanged; and an unknown template identifier
renders to the empty string, whatever the field list. -/
theorem C6_render_marker_free (m_templates : List (String × String)) (name : String) :
    (∀ markup, mapFind m_templates name = some markup → (∀ i, ¬ markerAt markup i) →
      buildContentFromTemplateValues m_templates { name := name, values := [] } = markup) ∧
    (mapFind m_templates name = none → ∀ values,
      buildContentFromTemplateValues m_templates { name := name, values := values } = "") := by
  constructor
  · intro markup hfind hfree
    have hnone : find markup "%%" 0 = none := by
      cases h : find markup "%%" 0 with
      | none => rfl
      | some p => exact absurd (find_some markup 0 p h).2.1 (hfree p)
    simp [buildContentFromTemplateValues, getTemplate, hfind, substituteValues, cleanupLoop,
      hnone]
  · intro hfind values
    simp only [buildContentFromTemplateValues, getTemplate, hfind, substituteValues_empty]
    rfl

theorem C6_render_marker_free_witness :
    mapFind [("msg", "hi")] "msg" = some "hi" ∧ (∀ i, ¬ markerAt "hi" i) ∧
    mapFind [("msg", "hi")] "video" = none ∧
    buildContentFromTemplateValues [("msg", "hi")] { name := "msg", values := [] } = "hi" ∧
    buildContentFromTemplateValues [("msg", "hi")]
      { name := "video", values := [("%%X%%", "x")] } = "" :=
  have hfree : ∀ i, ¬ markerAt "hi" i :=
    fun i => find_none "hi" 0 (by decide) i (Nat.zero_le i)
  ⟨rfl, hfree, rfl,
    (C6_render_marker_free [("msg", "hi")] "msg").1 "hi" rfl hfree,
    (C6_render_marker_free [("msg", "hi")] "video").2 rfl [("%%X%%", "x")]⟩

/-! ## What the loops of a run leave unchanged -/

theorem fixed_write (ex : Exporter) (line : String) : (ex.write line).fixed = ex.fixed := rfl

theorem fixed_debug (ex : Exporter) (line : String) : (ex.debug line).fixed = ex.fixed := rfl

theorem fixed_act (ex : Exporter) (a : Action) : (ex.act a).fixed = ex.fixed := rfl

theorem fixed_call (ex : Exporter) (c : Call) : (ex.call c).fixed = ex.fixed := rfl

theorem cancelled_write (ex : Exporter) (line : String) :
    (ex.write line).m_cancelled = ex.m_cancelled := rfl

theorem cancelled_act (ex : Exporter) (a : Action) : (ex.act a).m_cancelled = ex.m_cancelled :=
  rfl

/-- The `exportSession` step keeps the fixed members and never clears the cancelled flag. -/
theorem exportSession_frame (env : Env) (ex : Exporter) (user : Friend) (friends : Friends)
    (session : Session) (userBase outputBase : String) :
    (exportSession env ex user friends session userBase outputBase).2.fixed = ex.fixed ∧
    (ex.m_cancelled = true →
      (exportSession env ex user friends session userBase outputBase).2.m_cancelled = true) := by
  unfold exportSession
  simp only [Exporter.call, Exporter.act, Exporter.fixed]
  split_ifs <;> simp_all

theorem exportSession_frame_of_eq (env : Env) (ex : Exporter) (user : Friend) (friends : Friends)
    (session : Session) (userBase outputBase : String) (r : Int × Exporter)
    (h : exportSession env ex user friends session userBase outputBase = r) :
    r.2.fixed = ex.fixed ∧ (ex.m_cancelled = true → r.2.m_cancelled = true) :=
  h ▸ exportSession_frame env ex user friends session userBase outputBase

theorem option_map_some {α β : Type} (f : α → β) (o : Option α) (Q : α → Prop) (P : β → Prop)
    (ho : ∃ a, o = some a ∧ Q a) (hf : ∀ a, Q a → P (f a)) :
    ∃ b, o.map f = some b ∧ P b := by
  obtain ⟨a, rfl, ha⟩ := ho
  exact ⟨f a, rfl, hf a ha⟩

theorem option_bind_some {α β : Type} (f : α → Option β) (o : Option α) (Q : α → Prop)
    (P : β → Prop) (ho : ∃ a, o = some a ∧ Q a) (hf : ∀ a, Q a → ∃ b, f a = some b ∧ P b) :
    ∃ b, o.bind f = some b ∧ P b := by
  obtain ⟨a, rfl, ha⟩ := ho
  exact hf a ha

/-- The conversation loop is defined when the used names stay below the range of the suffix
counter; it keeps the fixed members and never clears the cancelled flag. -/
theorem exportUserSessions_frame (env : Env) (myself : Friend) (friends : Friends)
    (itUser : Option (Finset String)) (userBase outputBase : String) (size : Nat)
    (F : (Bool × Bool × Bool) × (Nat × String × String × String × String × String) ×
      List (String × Finset String) × List (String × String) × List (String × String) ×
      Bool × List NotifierEvent) (C : Bool) :
    ∀ (sessions : List Session) (idx : Nat) (ex : Exporter) (names : Finset String)
      (body : String),
      names.card + sessions.length < INT_MAX → ex.fixed = F →
      (C = true → ex.m_cancelled = true) →
      ∃ r,
        exportUserSessions env myself friends itUser userBase outputBase size sessions idx ex
          names body = some r ∧
        r.1.fixed = F ∧ (C = true → r.1.m_cancelled = true) := by
  intro sessions
  induction sessions with
  | nil =>
    intro idx ex names body _ hF hC
    exact ⟨(ex, names, body), rfl, hF, hC⟩
  | cons it rest ih =>
    intro idx ex names body hbound hF hC
    simp only [List.length_cons] at hbound
    by_cases hc : ex.m_cancelled = true
    · exact ⟨(ex, names, body), by simp [exportUserSessions, hc], hF, hC⟩
    have hc' : ex.m_cancelled = false := by simpa using hc
    by_cases hf : sessionFilteredOut ex itUser it.usrName = true
    · simp only [exportUserSessions, hc', hf, Bool.false_eq_true, ↓reduceIte]
      exact ih (idx + 1) ex names body (by omega) hF hC
    have hf' : sessionFilteredOut ex itUser it.usrName = false := by simpa using hf
    obtain ⟨ok, named, E', hb, _, hcard, _⟩ :=
      buildFileNameForUser_fresh env it.toFriend names (by simp only [INT_MAX] at hbound ⊢; omega)
    cases ok with
    | false =>
      simp only [exportUserSessions, hc', hf', hb, Bool.false_eq_true, ↓reduceIte]
      exact ih (idx + 1) _ names body (by omega) hF (fun h => hC h)
    | true =>
      simp only [exportUserSessions, hc', hf', hb, Bool.false_eq_true, ↓reduceIte]
      split
      · exact ih (idx + 1) _ E' body (by omega) hF (fun h => hC h)
      · generalize hr : exportSession env _ myself friends _ userBase outputBase = r
        obtain ⟨hr1, hr2⟩ := exportSession_frame_of_eq _ _ _ _ _ _ _ r hr
        obtain ⟨count, ex3⟩ := r
        simp only at hr1 hr2 ⊢
        refine ih (idx + 1) _ E' _ (by omega) ?_ ?_
        · rw [fixed_write, hr1]
          split <;> exact hF
        · intro h
          rw [cancelled_write]
          apply hr2
          split <;> exact hC h

/-- The part of `exportUser` after the folder exists is defined when every conversation list is
below the range of the suffix counter; it keeps the fixed members and never clears the cancelled
flag. -/
theorem exportUserBody_frame (env : Env)
    (hS : ∀ u f, (env.sortSessions (env.sessionsParse u f)).length < INT_MAX)
    (ex : Exporter) (user : Friend) (userBase outputBase : String) :
    ∃ ex', exportUserBody env ex user userBase outputBase = some ex' ∧
      ex'.fixed = ex.fixed ∧ (ex.m_cancelled = true → ex'.m_cancelled = true) := by
  simp only [exportUserBody, loadUserFriendsAndSessions]
  apply option_map_some _ _
    (fun r => r.1.fixed = ex.fixed ∧ (ex.m_cancelled = true → r.1.m_cancelled = true))
  · apply exportUserSessions_frame
    · simp only [Finset.card_empty, Nat.zero_add]
      split <;> exact hS _ _
    · simp only [Exporter.fixed, Exporter.act, Exporter.write, Exporter.debug]
      split_ifs <;> rfl
    · intro h
      simp only [Exporter.act, Exporter.write, Exporter.debug]
      split_ifs <;> simp [h]
  · rintro ⟨ex1, names, body⟩ ⟨h1, h2⟩
    simp only at h1 h2 ⊢
    constructor
    · rw [← h1]
      simp only [Exporter.fixed, Exporter.act, Exporter.write]
      split_ifs <;> rfl
    · intro h
      simp only [Exporter.act, Exporter.write]
      split_ifs <;> simp [h2 h]

/-- The `exportUser` step is defined when every conversation list is below the range of the
suffix counter; it keeps the fixed members and never clears the cancelled flag. -/
theorem exportUser_frame (env : Env)
    (hS : ∀ u f, (env.sortSessions (env.sessionsParse u f)).length < INT_MAX)
    (ex : Exporter) (user : Friend) :
    ∃ r, exportUser env ex user = some r ∧
      r.2.2.fixed = ex.fixed ∧ (ex.m_cancelled = true → r.2.2.m_cancelled = true) := by
  have body : ∀ (ex1 : Exporter) (userBase outputBase path : String),
      ex1.fixed = ex.fixed → (ex.m_cancelled = true → ex1.m_cancelled = true) →
      ∃ r, (exportUserBody env ex1 user userBase outputBase).map (fun ex => (true, path, ex))
          = some r ∧
        r.2.2.fixed = ex.fixed ∧ (ex.m_cancelled = true → r.2.2.m_cancelled = true) := by
    intro ex1 userBase outputBase path h1 h2
    apply option_map_some _ _
      (fun ex' => ex'.fixed = ex.fixed ∧ (ex.m_cancelled = true → ex'.m_cancelled = true))
    · obtain ⟨ex', h3, h4, h5⟩ := exportUserBody_frame env hS ex1 user userBase outputBase
      exact ⟨ex', h3, h4.trans h1, fun h => h5 (h2 h)⟩
    · intro ex' h
      exact h
  simp only [exportUser]
  split_ifs
  · exact body _ _ _ _ rfl (fun h => h)
  · exact body _ _ _ _ rfl (fun h => h)
  · exact body _ _ _ _ rfl (fun h => h)
  · exact body _ _ _ _ rfl (fun h => h)
  · exact ⟨_, rfl, rfl, fun h => h⟩

/-- The account loop is defined when the used names and every conversation list stay below the
range of the suffix counter; it keeps the fixed members and never clears the cancelled flag. -/
theorem runImplUsers_frame (env : Env)
    (hS : ∀ u f, (env.sortSessions (env.sessionsParse u f)).length < INT_MAX)
    (F : (Bool × Bool × Bool) × (Nat × String × String × String × String × String) ×
      List (String × Finset String) × List (String × String) × List (String × String) ×
      Bool × List NotifierEvent) (C : Bool) :
    ∀ (users : List Friend) (ex : Exporter) (names : Finset String) (body : String),
      names.card + users.length < INT_MAX → ex.fixed = F →
      (C = true → ex.m_cancelled = true) →
      ∃ r, runImplUsers env users ex names body = some r ∧
        r.1.fixed = F ∧ (C = true → r.1.m_cancelled = true) := by
  intro users
  induction users with
  | nil =>
    intro ex names body _ hF hC
    exact ⟨(ex, names, body), rfl, hF, hC⟩
  | cons it rest ih =>
    intro ex names body hbound hF hC
    simp only [List.length_cons] at hbound
    by_cases hc : ex.m_cancelled = true
    · exact ⟨(ex, names, body), by simp [runImplUsers, hc], hF, hC⟩
    have hc' : ex.m_cancelled = false := by simpa using hc
    by_cases hf : (!ex.m_usersAndSessions.isEmpty) = true ∧
        mapFind ex.m_usersAndSessions it.usrName = none
    · simp only [runImplUsers, hc', hf, Bool.false_eq_true, ↓reduceIte, and_self]
      exact ih ex names body (by omega) hF hC
    obtain ⟨ok, named, E', hb, _, hcard, _⟩ :=
      buildFileNameForUser_fresh env it names (by simp only [INT_MAX] at hbound ⊢; omega)
    cases ok with
    | false =>
      simp only [runImplUsers, hc', hf, hb, Bool.false_eq_true, ↓reduceIte]
      exact ih _ names body (by omega) hF (fun h => hC h)
    | true =>
      simp only [runImplUsers, hc', hf, hb, Bool.false_eq_true, ↓reduceIte]
      apply option_bind_some _ _
        (fun r => r.2.2.fixed = F ∧ (C = true → r.2.2.m_cancelled = true))
      · obtain ⟨r, h1, h2, h3⟩ := exportUser_frame env hS ex named
        exact ⟨r, h1, h2.trans hF, fun h => h3 (hC h)⟩
      · rintro ⟨ret, path, ex1⟩ ⟨h1, h2⟩
        exact ih _ E' _ (by omega) h1 h2

/-! ## The run -/

theorem loadStrings_eq (env : Env) (ex : Exporter) :
    ∃ l, loadStrings env ex = { ex with m_localeStrings := l } := by
  simp only [loadStrings]
  split
  · exact ⟨_, rfl⟩
  · exact ⟨_, rfl⟩

theorem loadTemplates_eq (env : Env) (ex : Exporter) :
    ∃ t, loadTemplates env ex = { ex with m_templates := t } := by
  have h : ∀ (names : List String) (ex : Exporter),
      ∃ t, names.foldl
        (fun ex name =>
          let path := env.combinePath [ex.m_workDir, "res", ex.m_templatesName, name ++ ".html"]
          { ex with m_templates := mapSet ex.m_templates name (env.readFile path) })
        ex = { ex with m_templates := t } := by
    intro names
    induction names with
    | nil => intro ex; exact ⟨ex.m_templates, rfl⟩
    | cons n ns ih =>
      intro ex
      simp only [List.foldl_cons]
      exact ih _
  exact h templateNames ex

/-- Loading the locale strings and the templates assigns these two members only. -/
theorem load_eq (env : Env) (ex : Exporter) :
    ∃ l t, loadTemplates env (loadStrings env ex) =
      { ex with m_localeStrings := l, m_templates := t } := by
  obtain ⟨l, hl⟩ := loadStrings_eq env ex
  obtain ⟨t, ht⟩ := loadTemplates_eq env (loadStrings env ex)
  refine ⟨l, t, ?_⟩
  rw [ht, hl]

theorem fixed_eq_iff (a b : Exporter) :
    a.fixed = b.fixed ↔
      (a.m_running = b.m_running ∧ a.threadJoinable = b.threadJoinable ∧
        a.workerActive = b.workerActive) ∧
      (a.m_options = b.m_options ∧ a.m_extName = b.m_extName ∧
        a.m_templatesName = b.m_templatesName ∧ a.m_workDir = b.m_workDir ∧
        a.m_backup = b.m_backup ∧ a.m_output = b.m_output) ∧
      a.m_usersAndSessions = b.m_usersAndSessions ∧ a.m_templates = b.m_templates ∧
      a.m_localeStrings = b.m_localeStrings ∧ a.hasNotifier = b.hasNotifier ∧
      a.events = b.events := by
  simp only [Exporter.fixed, Prod.mk.injEq]

/-- The run after loading, when the primary backup index fails to load: a failure line is
logged, the notifier (when set) receives `onComplete(false)`, and nothing else happens. -/
theorem runImplLoaded_index_failure (env : Env) (ex : Exporter)
    (hload : env.iTunesDbLoad = false) :
    runImplLoaded env ex = some (false,
      notifyComplete
        ((ex.write (env.formatString (getLocaleString ex.m_localeStrings "iTunes Backup: %s")
          [ex.m_backup])).write
          (env.formatString (getLocaleString ex.m_localeStrings
            "Failed to parse the backup data of iTunes in the directory: %s") [ex.m_backup]))
        false) := by
  simp [runImplLoaded, hload, Exporter.write]

/-- The run after loading: defined when the account list and the conversation lists are below
the range of the suffix counter; the notifier (when set) receives exactly one `onComplete`, the
other fixed members are kept and the cancelled flag is never cleared. -/
theorem runImplLoaded_frame (env : Env) (ex : Exporter)
    (hU : ∀ users, env.loginInfo2Parse = some users → users.length < INT_MAX)
    (hS : ∀ u f, (env.sortSessions (env.sessionsParse u f)).length < INT_MAX) :
    ∃ r, runImplLoaded env ex = some r ∧
      ∃ cancelled,
        r.2.fixed = (notifyComplete ex cancelled).fixed ∧
        (ex.m_cancelled = true → r.2.m_cancelled = true) ∧
        (r.1 = true → cancelled = r.2.m_cancelled) ∧ (r.1 = false → cancelled = false) := by
  by_cases hload : env.iTunesDbLoad = true
  · cases hlogin : env.loginInfo2Parse with
    | none =>
      simp only [runImplLoaded, hload, hlogin, Bool.not_true, Bool.false_eq_true, ↓reduceIte]
      refine ⟨_, rfl, false, ?_⟩
      simp only [notifyComplete, Exporter.write, Exporter.debug, Exporter.fixed]
      split_ifs <;> simp
    | some users =>
      simp only [runImplLoaded, hload, hlogin, Bool.not_true, Bool.false_eq_true, ↓reduceIte]
      apply option_map_some _ _
        (fun r => r.1.fixed = ex.fixed ∧ (ex.m_cancelled = true → r.1.m_cancelled = true))
      · apply runImplUsers_frame env hS
        · simpa using hU users hlogin
        · simp only [Exporter.fixed, Exporter.write, Exporter.debug]
          split_ifs <;> rfl
        · intro h
          simp only [Exporter.write, Exporter.debug]
          split_ifs <;> exact h
      · rintro ⟨ex1, names, body⟩ ⟨h1, h2⟩
        simp only at h1 h2 ⊢
        refine ⟨ex1.m_cancelled, ?_, ?_, ?_, ?_⟩
        · rw [fixed_eq_iff] at h1 ⊢
          simp only [notifyComplete, Exporter.write, Exporter.act]
          obtain ⟨⟨a1, a2, a3⟩, ⟨b1, b2, b3, b4, b5, b6⟩, c1, c2, c3, c4, c5⟩ := h1
          split_ifs <;> simp_all
        · intro h
          have := h2 h
          simp only [notifyComplete, Exporter.write, Exporter.act]
          split_ifs <;> simp [this]
        · intro _
          simp only [notifyComplete, Exporter.write, Exporter.act]
          split_ifs <;> rfl
        · intro h
          exact absurd h (by simp)
  · have hload' : env.iTunesDbLoad = false := by simpa using hload
    refine ⟨_, runImplLoaded_index_failure env ex hload', false, ?_⟩
    simp only [notifyComplete, Exporter.write, Exporter.fixed]
    split_ifs <;> simp

/-- Every run, whatever the collaborators return: `runImpl` is defined when the account list and
the conversation lists are below the range of the suffix counter, the notifier (when set)
receives exactly `onStart` and then `onComplete`, the controller members are not assigned and the
cancelled flag is never cleared. -/
theorem runImpl_frame (env : Env) (ex : Exporter)
    (hU : ∀ users, env.loginInfo2Parse = some users → users.length < INT_MAX)
    (hS : ∀ u f, (env.sortSessions (env.sessionsParse u f)).length < INT_MAX) :
    ∃ r, runImpl env ex = some r ∧
      ∃ cancelled,
        r.2.events = ex.events ++
          (if ex.hasNotifier then [NotifierEvent.onStart, NotifierEvent.onComplete cancelled]
           else []) ∧
        r.2.m_running = ex.m_running ∧ r.2.threadJoinable = ex.threadJoinable ∧
        r.2.workerActive = ex.workerActive ∧ r.2.hasNotifier = ex.hasNotifier ∧
        r.2.m_output = ex.m_output ∧
        (ex.m_cancelled = true → r.2.m_cancelled = true) ∧
        (r.1 = true → cancelled = r.2.m_cancelled) ∧ (r.1 = false → cancelled = false) := by
  obtain ⟨l, t, h⟩ := load_eq env (notifyStart ex)
  simp only [runImpl]
  rw [h]
  obtain ⟨r, h1, cancelled, h2, h3, h4, h5⟩ := runImplLoaded_frame env
    { notifyStart ex with m_localeStrings := l, m_templates := t } hU hS
  refine ⟨r, h1, cancelled, ?_⟩
  rw [fixed_eq_iff] at h2
  obtain ⟨⟨a1, a2, a3⟩, ⟨_, _, _, _, _, b6⟩, _, _, _, c4, c5⟩ := h2
  refine ⟨?_, ?_, ?_, ?_, ?_, ?_, ?_, h4, h5⟩
  · rw [c5]
    simp only [notifyComplete, notifyStart]
    split_ifs <;> simp_all
  · rw [a1]; simp only [notifyComplete, notifyStart]; split_ifs <;> rfl
  · rw [a2]; simp only [notifyComplete, notifyStart]; split_ifs <;> rfl
  · rw [a3]; simp only [notifyComplete, notifyStart]; split_ifs <;> rfl
  · rw [c4]; simp only [notifyComplete, notifyStart]; split_ifs <;> rfl
  · rw [b6]; simp only [notifyComplete, notifyStart]; split_ifs <;> rfl
  · intro hc
    apply h3
    simp only [notifyStart]
    split_ifs <;> exact hc

/-- The run when the primary backup index fails to load: two lines are logged, the second being
the failure message, the notifier (when set) receives `onStart` and `onComplete(false)`, and no
call is made on the file system, the loaders or the download pool. -/
theorem runImpl_index_failure (env : Env) (ex : Exporter) (hload : env.iTunesDbLoad = false) :
    ∃ ex' backupLine, runImpl env ex = some (false, ex') ∧
      ex'.log = ex.log ++ [backupLine, env.formatString (getLocaleString ex'.m_localeStrings
        "Failed to parse the backup data of iTunes in the directory: %s") [ex.m_backup]] ∧
      ex'.events = ex.events ++
        (if ex.hasNotifier then [NotifierEvent.onStart, NotifierEvent.onComplete false]
         else []) ∧
      ex'.actions = ex.actions ∧ ex'.calls = ex.calls := by
  obtain ⟨l, t, h⟩ := load_eq env (notifyStart ex)
  simp only [runImpl]
  rw [h, runImplLoaded_index_failure env _ hload]
  refine ⟨_, env.formatString (getLocaleString l "iTunes Backup: %s") [ex.m_backup], rfl, ?_⟩
  simp only [notifyComplete, notifyStart, Exporter.write]
  split_ifs <;> simp_all

/-! ## The run controller -/

/-- C7 (divergence). Restart from a terminal state is rejected: after `run()` has been accepted,
the worker has executed `runImpl` to its end and `waitForComplition()` has returned, the member
`m_running` is still set, so a new `run()` returns false, logs that the previous task has not
completed and starts nothing. (While a run is active, `run()` is rejected in the same way and
leaves the controller members as they are.) -/
theorem C7_restart_rejected (env : Env) (ex0 ex1 : Exporter)
    (hU : ∀ users, env.loginInfo2Parse = some users → users.length < INT_MAX)
    (hS : ∀ u f, (env.sortSessions (env.sessionsParse u f)).length < INT_MAX)
    (haccepted : run env ex0 = (true, ex1)) :
    ∃ ex2 ex3, workerFinished env ex1 = some ex2 ∧ waitForComplition ex2 = some ex3 ∧
      ex3.m_running = true ∧ ex3.threadJoinable = false ∧ ex3.workerActive = false ∧
      run env ex3 =
        (false, ex3.write (getLocaleString ex3.m_localeStrings "Previous task has not completed."))
      ∧ ∀ ex : Exporter, ex.m_running = true ∨ ex.threadJoinable = true →
        run env ex =
          (false, ex.write (getLocaleString ex.m_localeStrings "Previous task has not completed."))
      := by
  have hrej : ∀ ex : Exporter, ex.m_running = true ∨ ex.threadJoinable = true →
      run env ex =
        (false, ex.write (getLocaleString ex.m_localeStrings "Previous task has not completed."))
      := by
    intro ex h
    rcases h with h | h <;> simp [run, isRunning, h]
  have h1 : ex1.m_running = true ∧ ex1.threadJoinable = true ∧ ex1.workerActive = true := by
    simp only [run] at haccepted
    split_ifs at haccepted
    · exact absurd (congrArg Prod.fst haccepted) (by simp)
    · exact absurd (congrArg Prod.fst haccepted) (by simp)
    · have := congrArg Prod.snd haccepted
      simp only at this
      subst this
      exact ⟨rfl, rfl, rfl⟩
  obtain ⟨r, hr, _, _, hr1, hr2, _, _⟩ := runImpl_frame env ex1 hU hS
  have hw : workerFinished env ex1 = some { r.2 with workerActive := false } := by
    simp [workerFinished, h1.2.2, hr]
  have hwait : waitForComplition { r.2 with workerActive := false } =
      some { r.2 with workerActive := false, threadJoinable := false } := by
    simp [waitForComplition, isRunning, hr1, hr2, h1.1, h1.2.1]
  refine ⟨_, _, hw, hwait, ?_, rfl, rfl, ?_, hrej⟩
  · simp [hr1, h1.1]
  · exact hrej _ (Or.inl (by simp [hr1, h1.1]))

theorem exampleEnv_users_bound (users : List Friend)
    (h : exampleEnv.loginInfo2Parse = some users) : users.length < INT_MAX := by
  simp only [exampleEnv, Option.some.injEq] at h
  subst h
  decide

theorem exampleEnv_sessions_bound (u : Friend) (f : Friends) :
    (exampleEnv.sortSessions (exampleEnv.sessionsParse u f)).length < INT_MAX := by
  show ([] : List Session).length < INT_MAX
  decide

theorem C7_restart_rejected_witness :
    run exampleEnv exampleExporter =
      (true, { exampleExporter with
        m_running := true, threadJoinable := true, workerActive := true }) ∧
    ∃ ex2 ex3,
      workerFinished exampleEnv { exampleExporter with
        m_running := true, threadJoinable := true, workerActive := true } = some ex2 ∧
      waitForComplition ex2 = some ex3 ∧ (run exampleEnv ex3).1 = false := by
  refine ⟨rfl, ?_⟩
  obtain ⟨ex2, ex3, h1, h2, _, _, _, h6, _⟩ :=
    C7_restart_rejected exampleEnv exampleExporter _ exampleEnv_users_bound
      exampleEnv_sessions_bound rfl
  exact ⟨ex2, ex3, h1, h2, by rw [h6]⟩

/-- C8 (as amended). Fatal errors: when the output root is inaccessible, `run()` on an idle
exporter logs one message and returns false, without starting the worker, without any notifier
event and without processing any account; when the primary backup index fails to load,
`runImpl` logs the failure message, the notifier (when set) receives `onStart` and then
`onComplete(false)`, `runImpl` returns false and no account is processed (no export step is
invoked and no call is made on the file system, the loaders or the download pool). -/
theorem C8_fatal_errors (env : Env) (ex : Exporter) :
    (ex.m_running = false → ex.threadJoinable = false →
      env.existsDirectory ex.actions ex.m_output = false →
      run env ex = (false, ex.write (env.formatString
        (getLocaleString ex.m_localeStrings "Can't access output directory: %s")
        [ex.m_output])) ∧
      (run env ex).2.events = ex.events ∧ (run env ex).2.workerActive = ex.workerActive ∧
      (run env ex).2.actions = ex.actions ∧ (run env ex).2.calls = ex.calls) ∧
    (env.iTunesDbLoad = false →
      ∃ ex' backupLine, runImpl env ex = some (false, ex') ∧
        ex'.log = ex.log ++ [backupLine, env.formatString (getLocaleString ex'.m_localeStrings
          "Failed to parse the backup data of iTunes in the directory: %s") [ex.m_backup]] ∧
        ex'.events = ex.events ++
          (if ex.hasNotifier then [NotifierEvent.onStart, NotifierEvent.onComplete false]
           else []) ∧
        ex'.actions = ex.actions ∧ ex'.calls = ex.calls) := by
  refine ⟨fun h1 h2 h3 => ?_, fun h => runImpl_index_failure env ex h⟩
  have hrun : run env ex = (false, ex.write (env.formatString
      (getLocaleString ex.m_localeStrings "Can't access output directory: %s")
      [ex.m_output])) := by
    simp [run, isRunning, h1, h2, h3]
  rw [hrun]
  exact ⟨rfl, rfl, rfl, rfl, rfl⟩

theorem C8_fatal_errors_witness :
    (run exampleEnv exampleExporterNoOutput).1 = false ∧
    (run exampleEnv exampleExporterNoOutput).2.log =
      ["Can't access output directory: %s | nowhere"] ∧
    ∃ ex' backupLine, runImpl exampleEnvNoIndex (setNotifier exampleExporter) = some (false, ex') ∧
      ex'.log = [backupLine,
        "Failed to parse the backup data of iTunes in the directory: %s | backup"] ∧
      ex'.events = [NotifierEvent.onStart, NotifierEvent.onComplete false] ∧
      ex'.actions = [] ∧ ex'.calls = [] := by
  have h1 := (C8_fatal_errors exampleEnv exampleExporterNoOutput).1 rfl rfl rfl
  obtain ⟨ex', backupLine, h2, h3, h4, h5, h6⟩ :=
    (C8_fatal_errors exampleEnvNoIndex (setNotifier exampleExporter)).2 rfl
  refine ⟨by rw [h1.1], by rw [h1.1]; rfl, ex', backupLine, h2, ?_, h4, h5, h6⟩
  have hl : ex'.m_localeStrings = [] := by
    have := congrArg (Option.map (fun r => r.2.m_localeStrings)) h2
    exact (Option.some.inj this).symm
  rw [h3, hl]
  rfl

/-- C8 as stated fails for the first fatal condition: with a notifier set and an inaccessible
output root, `run()` logs the message and returns false, and the notifier receives nothing, so
no `onComplete(false)` is fired. -/
theorem C8_fatal_errors_counterexample :
    exampleExporterNoOutput.hasNotifier = true ∧
    exampleEnv.existsDirectory exampleExporterNoOutput.actions exampleExporterNoOutput.m_output
      = false ∧
    (run exampleEnv exampleExporterNoOutput).1 = false ∧
    (run exampleEnv exampleExporterNoOutput).2.log =
      ["Can't access output directory: %s | nowhere"] ∧
    (run exampleEnv exampleExporterNoOutput).2.events = [] ∧
    NotifierEvent.onComplete false ∉ (run exampleEnv exampleExporterNoOutput).2.events := by
  refine ⟨rfl, rfl, rfl, rfl, rfl, ?_⟩
  have h : (run exampleEnv exampleExporterNoOutput).2.events = [] := rfl
  rw [h]
  exact List.not_mem_nil _

/-- C9. Notifier exactly-once: for every execution of `runImpl` with a notifier set, whatever the
collaborators return (index load fails, account discovery fails, any accounts and conversations
within the range of the suffix counter, cancelled or not), `runImpl` returns and the events the
notifier receives during the execution are exactly `onStart` followed by `onComplete`: one
`onStart`, first; one `onComplete`, last; no `onProgress` after it. -/
theorem C9_notifier_exactly_once (env : Env) (ex : Exporter)
    (hN : ex.hasNotifier = true)
    (hU : ∀ users, env.loginInfo2Parse = some users → users.length < INT_MAX)
    (hS : ∀ u f, (env.sortSessions (env.sessionsParse u f)).length < INT_MAX) :
    ∃ ret ex' cancelled, runImpl env ex = some (ret, ex') ∧
      ex'.events = ex.events ++ [NotifierEvent.onStart, NotifierEvent.onComplete cancelled] ∧
      (ret = true → cancelled = ex'.m_cancelled) ∧ (ret = false → cancelled = false) := by
  obtain ⟨⟨ret, ex'⟩, h1, cancelled, h2, _, _, _, _, _, _, h3, h4⟩ :=
    runImpl_frame env ex hU hS
  refine ⟨ret, ex', cancelled, h1, ?_, h3, h4⟩
  rw [h2]
  simp [hN]

theorem C9_notifier_exactly_once_witness :
    (setNotifier exampleExporter).hasNotifier = true ∧
    ∃ ret ex' cancelled, runImpl exampleEnv (setNotifier exampleExporter) = some (ret, ex') ∧
      ex'.events = [NotifierEvent.onStart, NotifierEvent.onComplete cancelled] := by
  obtain ⟨ret, ex', cancelled, h1, h2, _⟩ :=
    C9_notifier_exactly_once exampleEnv (setNotifier exampleExporter) rfl
      exampleEnv_users_bound exampleEnv_sessions_bound
  exact ⟨rfl, ret, ex', cancelled, h1, h2⟩

/-! ## Skipped accounts -/

/-- C10 (divergence). Skipped account and the index: for the account Alice, whose folder can be
created neither under the resolved name `Alice` nor under the hash, `exportUser` returns false
after the two failed `makeDirectory` calls, without loading or writing anything and without a log
line; `runImpl` ignores the returned flag: the log of the run has no line about the skip and the
index document it writes holds the list entry of Alice. -/
theorem C10_skipped_account_listed :
    (exportUser exampleEnvOneAccount exampleExporter
        { exampleFriend "u1" "Alice" with outputFileName := "Alice" }).map
      (fun r => (r.1, r.2.1, r.2.2.log, r.2.2.actions)) =
      some (false, "h-u1", [],
        [Action.makeDirectory "out/Alice", Action.makeDirectory "out/h-u1"]) ∧
    (runImpl exampleEnvOneAccount exampleExporter).map
      (fun r => (r.1, r.2.log, r.2.actions, r.2.calls)) =
      some (true,
        ["iTunes Backup: %s | backup", "Finding Wechat accounts...",
          "%d Wechat account(s) found. | 1", "Completed in %s. | 00:00:00"],
        [Action.makeDirectory "out/Alice", Action.makeDirectory "out/h-u1",
          Action.writeFile "out/index.html" "<ul><li>Alice</li></ul>"],
        [Call.exportUser "u1"]) := by
  constructor
  · rfl
  · rfl

/-! ## Subscriptions and name resolution -/

/-- C13 (as amended). Subscription skip follows name resolution: in the conversation loop a
conversation flagged as subscription that passes the cancellation and filter tests is first
given a name by the Name Resolver and announced in the log, and only then skipped (no avatar
task, no `exportSession`, no index entry); the loop goes on with the used-names set that holds
the name assigned to the subscription, so no later conversation of the account receives that
name. -/
theorem C13_subscription_after_name_resolution (env : Env) (myself : Friend)
    (friends : Friends) (itUser : Option (Finset String)) (userBase outputBase : String)
    (size : Nat) (it : Session) (rest : List Session) (idx : Nat) (ex : Exporter)
    (names : Finset String) (body : String) (named : Friend) (names' : Finset String)
    (hE : names.card + 1 < INT_MAX - 1)
    (hc : ex.m_cancelled = false) (hf : sessionFilteredOut ex itUser it.usrName = false)
    (hsub : it.subscription = true)
    (hname : buildFileNameForUser env it.toFriend names = some (true, named, names')) :
    exportUserSessions env myself friends itUser userBase outputBase size (it :: rest) idx ex
        names body =
      exportUserSessions env myself friends itUser userBase outputBase size rest (idx + 1)
        ((ex.write (env.formatString
          (getLocaleString ex.m_localeStrings "%d/%d: Handling the chat with %s")
          [toString (idx + 1), toString size, named.displayName])).write
          (env.formatString (getLocaleString ex.m_localeStrings "Skip subscription: %s")
            [named.displayName]))
        names' body ∧
    named.outputFileName ∉ names ∧ names' = insert named.outputFileName names ∧
    ∀ (later named2 : Friend) (names2 : Finset String),
      buildFileNameForUser env later names' = some (true, named2, names2) →
      named2.outputFileName ≠ named.outputFileName := by
  obtain ⟨ok, n1, E1, h1, _, hcard, hfresh⟩ :=
    buildFileNameForUser_fresh env it.toFriend names (by omega)
  rw [hname] at h1
  simp only [Option.some.injEq, Prod.mk.injEq] at h1
  obtain ⟨rfl, rfl, rfl⟩ := h1
  obtain ⟨ok, n1, E1, h1, h2, h3⟩ :=
    buildFileNameLoop_spec env it.toFriend names (by omega)
      [it.displayName, it.usrName, it.hash]
  have h1' : buildFileNameForUser env it.toFriend names = some (ok, n1, E1) := h1
  rw [hname] at h1'
  simp only [Option.some.injEq, Prod.mk.injEq] at h1'
  obtain ⟨rfl, rfl, rfl⟩ := h1'
  have hins : names' = insert named.outputFileName names := by
    cases hfind : ([it.displayName, it.usrName, it.hash].map
        env.removeInvalidCharsForFileName).find? env.isValidFileName with
    | none =>
      rw [List.find?_eq_none] at hfind
      exact absurd (h2 (fun c hc => by simpa using hfind c hc)).1 (by simp)
    | some base => exact (h3 base hfind).2.2.1
  refine ⟨?_, (hfresh rfl).1, hins, ?_⟩
  · simp only [exportUserSessions, hc, hf, hname, hsub, Bool.false_eq_true, ↓reduceIte]
    rfl
  · intro later named2 names2 hlater heq
    obtain ⟨ok, n2, E2, h4, _, _, h5⟩ :=
      buildFileNameForUser_fresh env later names' (by omega)
    rw [hlater] at h4
    simp only [Option.some.injEq, Prod.mk.injEq] at h4
    obtain ⟨rfl, rfl, rfl⟩ := h4
    exact (h5 rfl).1 (heq ▸ (hfresh rfl).2)

theorem C13_subscription_after_name_resolution_witness :
    (∅ : Finset String).card + 1 < INT_MAX - 1 ∧
    exampleExporter.m_cancelled = false ∧
    (exampleSubscription "gh_1" "News").subscription = true ∧
    buildFileNameForUser exampleEnvExporting (exampleSubscription "gh_1" "News").toFriend ∅ =
      some (true, { (exampleSubscription "gh_1" "News").toFriend with outputFileName := "News" },
        {"News"}) ∧
    ∀ (later named2 : Friend) (names2 : Finset String),
      buildFileNameForUser exampleEnvExporting later {"News"} = some (true, named2, names2) →
      named2.outputFileName ≠ "News" :=
  ⟨by decide, rfl, rfl, rfl,
    (C13_subscription_after_name_resolution exampleEnvExporting (exampleFriend "A" "Alice") []
      none "ub" "out/A" 2 (exampleSubscription "gh_1" "News") [exampleSession "c2" "News"] 0
      exampleExporter ∅ ""
      { (exampleSubscription "gh_1" "News").toFriend with outputFileName := "News" } {"News"}
      (by decide) rfl rfl rfl rfl).2.2.2⟩

/-- C13 as stated fails: a subscription displayed as News, skipped by the conversation loop,
has taken the name `News` from the used-names set of the account, and the later
non-subscription conversation displayed as News is exported as `News_2`. -/
theorem C13_subscription_after_name_resolution_counterexample :
    (exampleSubscription "gh_1" "News").subscription = true ∧
    (exampleSession "c2" "News").subscription = false ∧
    (exportUserSessions exampleEnvExporting (exampleFriend "A" "Alice") [] none "ub" "out/A" 2
      [exampleSubscription "gh_1" "News", exampleSession "c2" "News"] 0 exampleExporter ∅ "").map
      (fun r => (r.2.1, r.1.calls, r.1.actions.getLast?)) =
      some (insert "News_2" {"News"}, [Call.exportSession "c2"],
        some (Action.writeFile "out/A/News_2.html" "")) :=
  ⟨rfl, rfl, rfl⟩

/-! ## Cancellation -/

/-- The conversation loop entered with the cancelled flag set is left at once. -/
theorem exportUserSessions_cancelled (env : Env) (myself : Friend) (friends : Friends)
    (itUser : Option (Finset String)) (userBase outputBase : String) (size : Nat)
    (sessions : List Session) (idx : Nat) (ex : Exporter) (names : Finset String)
    (body : String) (hc : ex.m_cancelled = true) :
    exportUserSessions env myself friends itUser userBase outputBase size sessions idx ex names
      body = some (ex, names, body) := by
  cases sessions with
  | nil => rfl
  | cons it rest => simp [exportUserSessions, hc]

/-- The account loop entered with the cancelled flag set is left at once. -/
theorem runImplUsers_cancelled (env : Env) (users : List Friend) (ex : Exporter)
    (names : Finset String) (body : String) (hc : ex.m_cancelled = true) :
    runImplUsers env users ex names body = some (ex, names, body) := by
  cases users with
  | nil => rfl
  | cons it rest => simp [runImplUsers, hc]

/-- When the index loads and the accounts are found, `runImpl` returns true. -/
theorem runImplLoaded_ret (env : Env) (ex : Exporter) (r : Bool × Exporter)
    (hload : env.iTunesDbLoad = true) (hlogin : env.loginInfo2Parse ≠ none)
    (h : runImplLoaded env ex = some r) : r.1 = true := by
  cases hl : env.loginInfo2Parse with
  | none => exact absurd hl hlogin
  | some users =>
    simp only [runImplLoaded, hload, hl, Bool.not_true, Bool.false_eq_true, ↓reduceIte,
      Option.map_eq_some'] at h
    obtain ⟨a, _, ha⟩ := h
    rw [← ha]

theorem runImpl_ret (env : Env) (ex : Exporter) (r : Bool × Exporter)
    (hload : env.iTunesDbLoad = true) (hlogin : env.loginInfo2Parse ≠ none)
    (h : runImpl env ex = some r) : r.1 = true :=
  runImplLoaded_ret env _ r hload hlogin h

/-- After an account whose export ends with the cancelled flag set, the account loop is left:
no later account is processed. -/
theorem runImplUsers_stops_after_cancel (env : Env) (it : Friend) (rest : List Friend)
    (ex : Exporter) (names : Finset String) (body : String) (named : Friend)
    (names' : Finset String) (ret : Bool) (path : String) (ex1 : Exporter)
    (hc : ex.m_cancelled = false)
    (hsel : ¬ ((!ex.m_usersAndSessions.isEmpty) = true ∧
      mapFind ex.m_usersAndSessions it.usrName = none))
    (hname : buildFileNameForUser env it names = some (true, named, names'))
    (hexp : exportUser env ex named = some (ret, path, ex1))
    (hc1 : ex1.m_cancelled = true) :
    ∃ body', runImplUsers env (it :: rest) ex names body = some (ex1, names', body') := by
  simp only [runImplUsers, hc, hsel, hname, hexp, Bool.false_eq_true, ↓reduceIte,
    Option.some_bind]
  exact ⟨_, runImplUsers_cancelled env rest ex1 names' _ hc1⟩

/-- C12. Cancellation. The cancelled flag is one-way: `cancel()` sets it and no operation
(`run`, `waitForComplition`, `exportSession`, `exportUser`, `runImpl`) clears it. When it is set
at a check of the conversation loop of `exportUser`, the loop is left at once, so `exportSession`
is invoked neither for that conversation nor for a later one; when it is set at a check of the
account loop of `runImpl`, as it is after an account whose export ended with the flag set, that
loop is left at once, so no later account is processed; and a run that reached the account loop
fires `onComplete` with the value of the flag, `onComplete(true)` once the flag is set. -/
theorem C12_cancellation (env : Env) (ex : Exporter)
    (hN : ex.hasNotifier = true)
    (hU : ∀ users, env.loginInfo2Parse = some users → users.length < INT_MAX)
    (hS : ∀ u f, (env.sortSessions (env.sessionsParse u f)).length < INT_MAX) :
    ((cancel ex).m_cancelled = true ∧
      (ex.m_cancelled = true →
        (run env ex).2.m_cancelled = true ∧
        (∀ ex', waitForComplition ex = some ex' → ex'.m_cancelled = true) ∧
        (∀ user friends session userBase outputBase,
          (exportSession env ex user friends session userBase outputBase).2.m_cancelled = true) ∧
        (∀ user, ∃ r, exportUser env ex user = some r ∧ r.2.2.m_cancelled = true) ∧
        ∃ r, runImpl env ex = some r ∧ r.2.m_cancelled = true)) ∧
    (ex.m_cancelled = true →
      ∀ myself friends itUser userBase outputBase size sessions idx names body,
        exportUserSessions env myself friends itUser userBase outputBase size sessions idx ex
          names body = some (ex, names, body)) ∧
    (ex.m_cancelled = true →
      ∀ users names body, runImplUsers env users ex names body = some (ex, names, body)) ∧
    (∀ it rest names body named names' ret path ex1,
      ex.m_cancelled = false →
      ¬ ((!ex.m_usersAndSessions.isEmpty) = true ∧
        mapFind ex.m_usersAndSessions it.usrName = none) →
      buildFileNameForUser env it names = some (true, named, names') →
      exportUser env ex named = some (ret, path, ex1) → ex1.m_cancelled = true →
      ∃ body', runImplUsers env (it :: rest) ex names body = some (ex1, names', body')) ∧
    ∃ ret ex' cancelled, runImpl env ex = some (ret, ex') ∧
      ex'.events = ex.events ++ [NotifierEvent.onStart, NotifierEvent.onComplete cancelled] ∧
      (env.iTunesDbLoad = true → env.loginInfo2Parse ≠ none →
        ret = true ∧ cancelled = ex'.m_cancelled) := by
  refine ⟨⟨rfl, fun hc => ⟨?_, ?_, ?_, ?_, ?_⟩⟩, ?_, ?_, ?_, ?_⟩
  · simp only [run]
    split_ifs <;> exact hc
  · intro ex' h
    simp only [waitForComplition] at h
    split_ifs at h <;> simp only [Option.some.injEq] at h <;> subst h <;> exact hc
  · intro user friends session userBase outputBase
    exact (exportSession_frame env ex user friends session userBase outputBase).2 hc
  · intro user
    obtain ⟨r, h1, _, h3⟩ := exportUser_frame env hS ex user
    exact ⟨r, h1, h3 hc⟩
  · obtain ⟨r, h1, _, _, _, _, _, _, _, h3, _⟩ := runImpl_frame env ex hU hS
    exact ⟨r, h1, h3 hc⟩
  · intro hc myself friends itUser userBase outputBase size sessions idx names body
    exact exportUserSessions_cancelled env myself friends itUser userBase outputBase size
      sessions idx ex names body hc
  · intro hc users names body
    exact runImplUsers_cancelled env users ex names body hc
  · intro it rest names body named names' ret path ex1 hc hsel hname hexp hc1
    exact runImplUsers_stops_after_cancel env it rest ex names body named names' ret path ex1
      hc hsel hname hexp hc1
  · obtain ⟨⟨ret, ex'⟩, h1, cancelled, h2, _, _, _, _, _, _, h3, _⟩ :=
      runImpl_frame env ex hU hS
    refine ⟨ret, ex', cancelled, h1, by rw [h2]; simp [hN], fun hload hlogin => ?_⟩
    have hret := runImpl_ret env ex (ret, ex') hload hlogin h1
    exact ⟨hret, h3 hret⟩

theorem exampleEnvTwoAccounts_users_bound (users : List Friend)
    (h : exampleEnvTwoAccounts.loginInfo2Parse = some users) : users.length < INT_MAX := by
  simp only [exampleEnvTwoAccounts, Option.some.injEq] at h
  subst h
  decide

theorem exampleEnvTwoAccounts_sessions_bound (u : Friend) (f : Friends) :
    (exampleEnvTwoAccounts.sortSessions (exampleEnvTwoAccounts.sessionsParse u f)).length
      < INT_MAX := by
  show (if (u.usrName == "A") = true then
      [exampleSession "C1" "Carol", exampleSession "C2" "Dave"]
    else [exampleSession "C3" "Erin"]).length < INT_MAX
  split <;> decide

theorem C12_cancellation_witness :
    (setNotifier exampleExporter).hasNotifier = true ∧
    (runImpl exampleEnvCancelled (setNotifier exampleExporter)).map
      (fun r => (r.1, r.2.calls, r.2.events, r.2.m_cancelled)) =
      some (true, [Call.exportUser "A", Call.exportSession "C1"],
        [NotifierEvent.onStart, NotifierEvent.onComplete true], true) ∧
    ∃ ret ex' cancelled, runImpl exampleEnvCancelled (setNotifier exampleExporter) =
        some (ret, ex') ∧
      ex'.events = [NotifierEvent.onStart, NotifierEvent.onComplete cancelled] ∧
      ret = true ∧ cancelled = ex'.m_cancelled := by
  refine ⟨rfl, rfl, ?_⟩
  obtain ⟨ret, ex', cancelled, h1, h2, h3⟩ :=
    (C12_cancellation exampleEnvCancelled (setNotifier exampleExporter) rfl
      exampleEnvTwoAccounts_users_bound exampleEnvTwoAccounts_sessions_bound).2.2.2.2
  exact ⟨ret, ex', cancelled, h1, h2, h3 rfl (by simp [exampleEnvCancelled,
    exampleEnvTwoAccounts])⟩

/-! ## Filtering -/

theorem account_test_iff (F : List (String × Finset String)) (account : String) :
    ((!F.isEmpty) = true ∧ mapFind F account = none) ↔ accountSelected F account = false := by
  simp only [accountSelected]
  cases F.isEmpty <;> cases mapFind F account <;> simp

theorem sessionFilteredOut_eq (ex : Exporter) (account session : String) :
    sessionFilteredOut ex
      (if !ex.m_usersAndSessions.isEmpty then mapFind ex.m_usersAndSessions account else none)
      session = !sessionSelected ex.m_usersAndSessions account session := by
  simp only [sessionFilteredOut, sessionSelected]
  cases ex.m_usersAndSessions.isEmpty <;> cases mapFind ex.m_usersAndSessions account <;> simp

theorem buildFileNameLoop_usrName (env : Env) (user : Friend) (E : Finset String) :
    ∀ (names : List String) (r : Bool × Friend × Finset String),
      buildFileNameLoop env user E names = some r → r.2.1.usrName = user.usrName := by
  intro names
  induction names with
  | nil =>
    intro r h
    simp only [buildFileNameLoop, Option.some.injEq] at h
    rw [← h]
  | cons name names ih =>
    intro r h
    simp only [buildFileNameLoop] at h
    split_ifs at h
    · split at h
      · exact absurd h (by simp)
      · simp only [Option.some.injEq] at h
        rw [← h]
    · simp only [Option.some.injEq] at h
      rw [← h]
    · exact ih r h

theorem exportSession_calls (env : Env) (ex : Exporter) (user : Friend) (friends : Friends)
    (session : Session) (userBase outputBase : String) :
    (exportSession env ex user friends session userBase outputBase).2.calls =
      ex.calls ++ [Call.exportSession session.usrName] := by
  unfold exportSession
  simp only [Exporter.call, Exporter.act]
  split_ifs <;> rfl

theorem exportSession_calls_of_eq (env : Env) (ex : Exporter) (user : Friend) (friends : Friends)
    (session : Session) (userBase outputBase : String) (r : Int × Exporter)
    (h : exportSession env ex user friends session userBase outputBase = r) :
    r.2.calls = ex.calls ++ [Call.exportSession session.usrName] :=
  h ▸ exportSession_calls env ex user friends session userBase outputBase

/-- Every `exportSession` invoked by the conversation loop of an account is for a conversation
that the filter map selects for that account. -/
theorem exportUserSessions_calls (env : Env) (myself : Friend) (friends : Friends)
    (userBase outputBase : String) (size : Nat) (F : List (String × Finset String))
    (account : String) :
    ∀ (sessions : List Session) (idx : Nat) (ex : Exporter) (names : Finset String)
      (body : String) (r : Exporter × Finset String × String),
      ex.m_usersAndSessions = F →
      exportUserSessions env myself friends
        (if !F.isEmpty then mapFind F account else none) userBase outputBase size sessions idx
        ex names body = some r →
      ∃ cs, r.1.calls = ex.calls ++ cs ∧
        ∀ c ∈ cs, ∃ s, c = Call.exportSession s ∧ sessionSelected F account s = true := by
  intro sessions
  induction sessions with
  | nil =>
    intro idx ex names body r _ h
    simp only [exportUserSessions, Option.some.injEq] at h
    exact ⟨[], by rw [← h]; simp, by simp⟩
  | cons it rest ih =>
    intro idx ex names body r hF h
    by_cases hc : ex.m_cancelled = true
    · simp only [exportUserSessions, hc, ↓reduceIte, Option.some.injEq] at h
      exact ⟨[], by rw [← h]; simp, by simp⟩
    have hc' : ex.m_cancelled = false := by simpa using hc
    have hfo := sessionFilteredOut_eq ex account it.usrName
    rw [hF] at hfo
    by_cases hf : sessionSelected F account it.usrName = true
    · rw [hf] at hfo
      simp only [Bool.not_true] at hfo
      cases hb : buildFileNameForUser env it.toFriend names with
      | none =>
        simp only [exportUserSessions, hc', hfo, hb, Bool.false_eq_true, ↓reduceIte] at h
        exact absurd h (by simp)
      | some res =>
        obtain ⟨ok, named, E'⟩ := res
        have hn : named.usrName = it.usrName :=
          buildFileNameLoop_usrName env it.toFriend names _ _ hb
        cases ok with
        | false =>
          simp only [exportUserSessions, hc', hfo, hb, Bool.false_eq_true, ↓reduceIte] at h
          obtain ⟨cs, h1, h2⟩ := ih _ _ _ _ r (by exact hF) h
          exact ⟨cs, h1, h2⟩
        | true =>
          simp only [exportUserSessions, hc', hfo, hb, Bool.false_eq_true, ↓reduceIte] at h
          split at h
          · obtain ⟨cs, h1, h2⟩ := ih _ _ _ _ r (by exact hF) h
            exact ⟨cs, h1, h2⟩
          · generalize hr : exportSession env _ myself friends _ userBase outputBase = rr at h
            have hfr := (exportSession_frame_of_eq _ _ _ _ _ _ _ rr hr).1
            have hcl := exportSession_calls_of_eq _ _ _ _ _ _ _ rr hr
            obtain ⟨count, ex3⟩ := rr
            simp only at hfr hcl h
            have hF3 : ex3.m_usersAndSessions = F := by
              rw [fixed_eq_iff] at hfr
              rw [hfr.2.2.1]
              split <;> exact hF
            obtain ⟨cs, h1, h2⟩ := ih _ _ _ _ r (by exact hF3) h
            refine ⟨Call.exportSession it.usrName :: cs, ?_, ?_⟩
            · rw [h1]
              show ex3.calls ++ cs = _
              rw [hcl, hn]
              have : ∀ (c : Prop) [Decidable c] (a : Action) (e : Exporter),
                  (if c then e.act a else e).calls = e.calls := by
                intro c _ a e; split <;> rfl
              rw [this]
              show ex.calls ++ [Call.exportSession it.usrName] ++ cs = _
              simp
            · intro c hcm
              rcases List.mem_cons.mp hcm with rfl | hcm
              · exact ⟨_, rfl, hf⟩
              · exact h2 c hcm
    · have hf' : sessionSelected F account it.usrName = false := by simpa using hf
      rw [hf'] at hfo
      simp only [Bool.not_false] at hfo
      simp only [exportUserSessions, hc', hfo, Bool.false_eq_true, ↓reduceIte] at h
      exact ih _ _ _ _ r (by exact hF) h

theorem option_map_all {α β : Type} (f : α → β) (o : Option α) (Q : α → Prop) (P : β → Prop)
    (ho : ∀ a, o = some a → Q a) (hf : ∀ a, Q a → P (f a)) :
    ∀ b, o.map f = some b → P b := by
  intro b hb
  cases o with
  | none => exact absurd hb (by simp)
  | some a =>
    simp only [Option.map_some', Option.some.injEq] at hb
    exact hb ▸ hf a (ho a rfl)

theorem exportUserSessions_calls_of (env : Env) (myself : Friend) (friends : Friends)
    (userBase outputBase : String) (size : Nat) (F : List (String × Finset String))
    (account : String) (itUser : Option (Finset String)) (sessions : List Session) (idx : Nat)
    (ex : Exporter) (names : Finset String) (body : String)
    (r : Exporter × Finset String × String)
    (h : exportUserSessions env myself friends itUser userBase outputBase size sessions idx ex
      names body = some r)
    (hit : itUser = if !F.isEmpty then mapFind F account else none)
    (hF : ex.m_usersAndSessions = F) :
    ∃ cs, r.1.calls = ex.calls ++ cs ∧
      ∀ c ∈ cs, ∃ s, c = Call.exportSession s ∧ sessionSelected F account s = true := by
  subst hit
  exact exportUserSessions_calls env myself friends userBase outputBase size F account sessions
    idx ex names body r hF h

/-- The export of one account invokes `exportSession` only for the conversations that the filter
map selects for the account. -/
theorem exportUserBody_calls (env : Env) (ex : Exporter) (user : Friend)
    (userBase outputBase : String) :
    ∀ ex', exportUserBody env ex user userBase outputBase = some ex' →
      ∃ cs, ex'.calls = ex.calls ++ cs ∧
        ∀ c ∈ cs, ∃ s, c = Call.exportSession s ∧
          sessionSelected ex.m_usersAndSessions user.usrName s = true := by
  simp only [exportUserBody, loadUserFriendsAndSessions]
  apply option_map_all _ _
    (fun r => ∃ cs, r.1.calls = ex.calls ++ cs ∧
      ∀ c ∈ cs, ∃ s, c = Call.exportSession s ∧
        sessionSelected ex.m_usersAndSessions user.usrName s = true)
  · intro a ha
    have key := exportUserSessions_calls_of env _ _ userBase outputBase _ ex.m_usersAndSessions
      user.usrName _ _ _ _ _ _ a ha
    obtain ⟨cs, h1, h2⟩ := key
      (by simp only [Exporter.act, Exporter.write, Exporter.debug]; split_ifs <;> rfl)
      (by simp only [Exporter.act, Exporter.write, Exporter.debug]; split_ifs <;> rfl)
    refine ⟨cs, ?_, h2⟩
    rw [h1]
    congr 1
    simp only [Exporter.act, Exporter.write, Exporter.debug]
    split_ifs <;> rfl
  · rintro ⟨ex1, names, body⟩ ⟨cs, h1, h2⟩
    refine ⟨cs, ?_, h2⟩
    simp only at h1 ⊢
    rw [← h1]
    simp only [Exporter.act, Exporter.write]
    split_ifs <;> rfl

/-- The `exportUser` step records itself and then invokes `exportSession` only for the
conversations that the filter map selects for the account. -/
theorem exportUser_calls (env : Env) (ex : Exporter) (user : Friend) :
    ∀ r, exportUser env ex user = some r →
      ∃ cs, r.2.2.calls = ex.calls ++ Call.exportUser user.usrName :: cs ∧
        ∀ c ∈ cs, ∃ s, c = Call.exportSession s ∧
          sessionSelected ex.m_usersAndSessions user.usrName s = true := by
  have body : ∀ (ex1 : Exporter) (userBase outputBase path : String),
      ex1.calls = ex.calls ++ [Call.exportUser user.usrName] →
      ex1.m_usersAndSessions = ex.m_usersAndSessions →
      ∀ r, (exportUserBody env ex1 user userBase outputBase).map (fun ex => (true, path, ex))
          = some r →
        ∃ cs, r.2.2.calls = ex.calls ++ Call.exportUser user.usrName :: cs ∧
          ∀ c ∈ cs, ∃ s, c = Call.exportSession s ∧
            sessionSelected ex.m_usersAndSessions user.usrName s = true := by
    intro ex1 userBase outputBase path h1 h2
    apply option_map_all _ _
      (fun ex' => ∃ cs, ex'.calls = ex.calls ++ Call.exportUser user.usrName :: cs ∧
        ∀ c ∈ cs, ∃ s, c = Call.exportSession s ∧
          sessionSelected ex.m_usersAndSessions user.usrName s = true)
    · intro ex' h
      obtain ⟨cs, h3, h4⟩ := exportUserBody_calls env ex1 user userBase outputBase ex' h
      refine ⟨cs, ?_, ?_⟩
      · rw [h3, h1]; simp
      · rw [h2] at h4; exact h4
    · intro ex' h
      exact h
  simp only [exportUser]
  split_ifs
  · exact body _ _ _ _ rfl rfl
  · exact body _ _ _ _ rfl rfl
  · exact body _ _ _ _ rfl rfl
  · exact body _ _ _ _ rfl rfl
  · intro r h
    simp only [Option.some.injEq] at h
    exact ⟨[], by rw [← h]; rfl, by simp⟩

theorem callsRespectFilter_sessions (F : List (String × Finset String)) (account : String) :
    ∀ (cs1 cs2 : List Call),
      (∀ c ∈ cs1, ∃ s, c = Call.exportSession s ∧ sessionSelected F account s = true) →
      callsRespectFilter F (some account) cs2 = true →
      callsRespectFilter F (some account) (cs1 ++ cs2) = true := by
  intro cs1
  induction cs1 with
  | nil => intro cs2 _ h; exact h
  | cons c cs1 ih =>
    intro cs2 h1 h2
    obtain ⟨s, rfl, hs⟩ := h1 c (List.mem_cons_self _ _)
    simp only [List.cons_append, callsRespectFilter, hs, Bool.true_and]
    exact ih cs2 (fun c hc => h1 c (List.mem_cons_of_mem _ hc)) h2

theorem exportUser_usersAndSessions (env : Env)
    (hS : ∀ u f, (env.sortSessions (env.sessionsParse u f)).length < INT_MAX)
    (ex : Exporter) (user : Friend) (r : Bool × String × Exporter)
    (h : exportUser env ex user = some r) :
    r.2.2.m_usersAndSessions = ex.m_usersAndSessions := by
  obtain ⟨r', h1, h2, _⟩ := exportUser_frame env hS ex user
  rw [h] at h1
  simp only [Option.some.injEq] at h1
  subst h1
  rw [fixed_eq_iff] at h2
  exact h2.2.2.1

/-- The export steps invoked by the account loop respect the filter map. -/
theorem runImplUsers_calls (env : Env)
    (hS : ∀ u f, (env.sortSessions (env.sessionsParse u f)).length < INT_MAX)
    (F : List (String × Finset String)) :
    ∀ (users : List Friend) (ex : Exporter) (names : Finset String) (body : String)
      (r : Exporter × Finset String × String),
      ex.m_usersAndSessions = F → runImplUsers env users ex names body = some r →
      ∃ cs, r.1.calls = ex.calls ++ cs ∧ ∀ cur, callsRespectFilter F cur cs = true := by
  intro users
  induction users with
  | nil =>
    intro ex names body r _ h
    simp only [runImplUsers, Option.some.injEq] at h
    exact ⟨[], by rw [← h]; simp, fun cur => by cases cur <;> rfl⟩
  | cons it rest ih =>
    intro ex names body r hF h
    by_cases hc : ex.m_cancelled = true
    · simp only [runImplUsers, hc, ↓reduceIte, Option.some.injEq] at h
      exact ⟨[], by rw [← h]; simp, fun cur => by cases cur <;> rfl⟩
    have hc' : ex.m_cancelled = false := by simpa using hc
    by_cases hf : (!ex.m_usersAndSessions.isEmpty) = true ∧
        mapFind ex.m_usersAndSessions it.usrName = none
    · simp only [runImplUsers, hc', hf, Bool.false_eq_true, ↓reduceIte, and_self] at h
      exact ih ex names body r hF h
    have hsel : accountSelected F it.usrName = true := by
      rw [account_test_iff, hF] at hf
      simpa using hf
    cases hb : buildFileNameForUser env it names with
    | none =>
      simp only [runImplUsers, hc', hf, hb, Bool.false_eq_true, ↓reduceIte] at h
      exact absurd h (by simp)
    | some res =>
      obtain ⟨ok, named, E'⟩ := res
      have hn : named.usrName = it.usrName := buildFileNameLoop_usrName env it names _ _ hb
      cases ok with
      | false =>
        simp only [runImplUsers, hc', hf, hb, Bool.false_eq_true, ↓reduceIte] at h
        obtain ⟨cs, h1, h2⟩ := ih _ _ _ r (by exact hF) h
        exact ⟨cs, h1, h2⟩
      | true =>
        simp only [runImplUsers, hc', hf, hb, Bool.false_eq_true, ↓reduceIte] at h
        cases hexp : exportUser env ex named with
        | none =>
          rw [hexp] at h
          exact absurd h (by simp)
        | some r1 =>
          rw [hexp] at h
          simp only [Option.some_bind] at h
          obtain ⟨cs1, h3, h4⟩ := exportUser_calls env ex named r1 hexp
          have hF1 : r1.2.2.m_usersAndSessions = F :=
            (exportUser_usersAndSessions env hS ex named r1 hexp).trans hF
          obtain ⟨cs2, h5, h6⟩ := ih _ _ _ r hF1 h
          refine ⟨Call.exportUser it.usrName :: (cs1 ++ cs2), ?_, ?_⟩
          · rw [h5, h3, hn]; simp
          · intro cur
            have : callsRespectFilter F (some it.usrName) (cs1 ++ cs2) = true := by
              apply callsRespectFilter_sessions F it.usrName cs1 cs2 _ (h6 _)
              intro c hcm
              obtain ⟨s, h7, h8⟩ := h4 c hcm
              exact ⟨s, h7, by rw [hF, hn] at h8; exact h8⟩
            cases cur <;> simp [callsRespectFilter, hsel, this]

/-- The account loop does on an account list exactly what it does on the list of the accounts
selected by the filter map: an account that is not selected is passed over without any effect
(no log line, no export step, no index entry). -/
theorem runImplUsers_filter (env : Env)
    (hS : ∀ u f, (env.sortSessions (env.sessionsParse u f)).length < INT_MAX)
    (F : List (String × Finset String)) :
    ∀ (users : List Friend) (ex : Exporter) (names : Finset String) (body : String),
      ex.m_usersAndSessions = F →
      runImplUsers env users ex names body =
        runImplUsers env (users.filter (fun u => accountSelected F u.usrName)) ex names body := by
  intro users
  induction users with
  | nil => intro ex names body _; rfl
  | cons it rest ih =>
    intro ex names body hF
    by_cases hc : ex.m_cancelled = true
    · rw [runImplUsers_cancelled env _ ex names body hc,
        runImplUsers_cancelled env _ ex names body hc]
    have hc' : ex.m_cancelled = false := by simpa using hc
    by_cases hf : (!ex.m_usersAndSessions.isEmpty) = true ∧
        mapFind ex.m_usersAndSessions it.usrName = none
    · have hsel : accountSelected F it.usrName = false := by
        rw [account_test_iff, hF] at hf
        exact hf
      simp only [List.filter_cons, hsel, Bool.false_eq_true, ↓reduceIte]
      simp only [runImplUsers, hc', hf, Bool.false_eq_true, ↓reduceIte, and_self]
      exact ih ex names body hF
    · have hsel : accountSelected F it.usrName = true := by
        rw [account_test_iff, hF] at hf
        simpa using hf
      simp only [List.filter_cons, hsel, ↓reduceIte]
      simp only [runImplUsers, hc', hf, Bool.false_eq_true, ↓reduceIte]
      cases hb : buildFileNameForUser env it names with
      | none => rfl
      | some res =>
        obtain ⟨ok, named, E'⟩ := res
        cases ok with
        | false => exact ih _ _ _ (by exact hF)
        | true =>
          simp only
          cases hexp : exportUser env ex named with
          | none => rfl
          | some r1 =>
            simp only [Option.some_bind]
            exact ih _ _ _ ((exportUser_usersAndSessions env hS ex named r1 hexp).trans hF)

theorem callsRespectFilter_nil (F : List (String × Finset String)) (cur : Option String) :
    callsRespectFilter F cur [] = true := by
  cases cur <;> rfl

/-- The export steps invoked by the run after loading respect the filter map. -/
theorem runImplLoaded_calls (env : Env)
    (hS : ∀ u f, (env.sortSessions (env.sessionsParse u f)).length < INT_MAX)
    (ex : Exporter) :
    ∀ r, runImplLoaded env ex = some r →
      ∃ cs, r.2.calls = ex.calls ++ cs ∧
        ∀ cur, callsRespectFilter ex.m_usersAndSessions cur cs = true := by
  by_cases hload : env.iTunesDbLoad = true
  · cases hlogin : env.loginInfo2Parse with
    | none =>
      intro r h
      simp only [runImplLoaded, hload, hlogin, Bool.not_true, Bool.false_eq_true, ↓reduceIte,
        Option.some.injEq] at h
      refine ⟨[], ?_, callsRespectFilter_nil _⟩
      rw [← h]
      simp only [notifyComplete, Exporter.write, Exporter.debug, List.append_nil]
      split_ifs <;> rfl
    | some users =>
      simp only [runImplLoaded, hload, hlogin, Bool.not_true, Bool.false_eq_true, ↓reduceIte]
      apply option_map_all _ _
        (fun r => ∃ cs, r.1.calls = ex.calls ++ cs ∧
          ∀ cur, callsRespectFilter ex.m_usersAndSessions cur cs = true)
      · intro a ha
        obtain ⟨cs, h1, h2⟩ := runImplUsers_calls env hS ex.m_usersAndSessions users _ _ _ a
          (by simp only [Exporter.write, Exporter.debug]; split_ifs <;> rfl) ha
        refine ⟨cs, ?_, h2⟩
        rw [h1]
        congr 1
        simp only [Exporter.write, Exporter.debug]
        split_ifs <;> rfl
      · rintro ⟨ex1, names, body⟩ ⟨cs, h1, h2⟩
        refine ⟨cs, ?_, h2⟩
        simp only at h1 ⊢
        rw [← h1]
        simp only [notifyComplete, Exporter.write, Exporter.act]
        split_ifs <;> rfl
  · have hload' : env.iTunesDbLoad = false := by simpa using hload
    intro r h
    rw [runImplLoaded_index_failure env ex hload'] at h
    simp only [Option.some.injEq] at h
    refine ⟨[], ?_, callsRespectFilter_nil _⟩
    rw [← h]
    simp only [notifyComplete, Exporter.write, List.append_nil]
    split_ifs <;> rfl

/-- The export steps invoked by a run respect the filter map. -/
theorem runImpl_calls (env : Env)
    (hS : ∀ u f, (env.sortSessions (env.sessionsParse u f)).length < INT_MAX)
    (ex : Exporter) :
    ∀ r, runImpl env ex = some r →
      ∃ cs, r.2.calls = ex.calls ++ cs ∧
        ∀ cur, callsRespectFilter ex.m_usersAndSessions cur cs = true := by
  obtain ⟨l, t, h⟩ := load_eq env (notifyStart ex)
  simp only [runImpl]
  rw [h]
  intro r hr
  obtain ⟨cs, h1, h2⟩ := runImplLoaded_calls env hS _ r hr
  refine ⟨cs, ?_, ?_⟩
  · rw [h1]
    simp only [notifyStart]
    split_ifs <;> rfl
  · intro cur
    have := h2 cur
    simp only [notifyStart] at this
    split_ifs at this <;> exact this

/-- C11. Filtering, for every filter map F (the member `m_usersAndSessions`), account list and
conversation lists. The account loop does on the account list exactly what it does on the list
of the selected accounts, so an account that is not selected is not processed (no `exportUser`,
no index entry). In the history of a run every `exportUser` is for a selected account and every
`exportSession` is for a selected conversation of the account being exported. Selected means:
F is empty, or the account is a key of F and the conversation is in F[account]; the two skip
tests of the code are the negations of these conditions, and with an empty F neither test ever
skips an account or a conversation. -/
theorem C11_filtering (env : Env) (ex : Exporter)
    (hU : ∀ users, env.loginInfo2Parse = some users → users.length < INT_MAX)
    (hS : ∀ u f, (env.sortSessions (env.sessionsParse u f)).length < INT_MAX) :
    (∀ users names body,
      runImplUsers env users ex names body =
        runImplUsers env
          (users.filter (fun u => accountSelected ex.m_usersAndSessions u.usrName)) ex names
          body) ∧
    (∃ ret ex' cs, runImpl env ex = some (ret, ex') ∧ ex'.calls = ex.calls ++ cs ∧
      callsRespectFilter ex.m_usersAndSessions none cs = true) ∧
    (∀ account,
      (accountSelected ex.m_usersAndSessions account = true ↔
        ex.m_usersAndSessions = [] ∨ ∃ allowed, mapFind ex.m_usersAndSessions account
          = some allowed) ∧
      (((!ex.m_usersAndSessions.isEmpty) = true ∧
        mapFind ex.m_usersAndSessions account = none) ↔
        accountSelected ex.m_usersAndSessions account = false)) ∧
    (∀ account session,
      (sessionSelected ex.m_usersAndSessions account session = true ↔
        ex.m_usersAndSessions = [] ∨ ∃ allowed, mapFind ex.m_usersAndSessions account
          = some allowed ∧ session ∈ allowed) ∧
      sessionFilteredOut ex
        (if !ex.m_usersAndSessions.isEmpty then mapFind ex.m_usersAndSessions account else none)
        session = !sessionSelected ex.m_usersAndSessions account session) ∧
    (ex.m_usersAndSessions = [] →
      (∀ account, ¬ ((!ex.m_usersAndSessions.isEmpty) = true ∧
        mapFind ex.m_usersAndSessions account = none)) ∧
      ∀ itUser session, sessionFilteredOut ex itUser session = false) := by
  refine ⟨fun users names body => runImplUsers_filter env hS _ users ex names body rfl,
    ?_, ?_, ?_, ?_⟩
  · obtain ⟨⟨ret, ex'⟩, h1, _⟩ := runImpl_frame env ex hU hS
    obtain ⟨cs, h2, h3⟩ := runImpl_calls env hS ex _ h1
    exact ⟨ret, ex', cs, h1, h2, h3 none⟩
  · intro account
    refine ⟨?_, account_test_iff _ _⟩
    simp only [accountSelected, Bool.or_eq_true, List.isEmpty_iff, Option.isSome_iff_exists]
  · intro account session
    refine ⟨?_, sessionFilteredOut_eq ex account session⟩
    simp only [sessionSelected, Bool.or_eq_true, List.isEmpty_iff]
    cases mapFind ex.m_usersAndSessions account <;> simp
  · intro hF
    refine ⟨fun account h => ?_, fun itUser session => ?_⟩
    · rw [hF] at h
      exact absurd h.1 (by simp)
    · simp [sessionFilteredOut, hF]

theorem C11_filtering_witness :
    (runImpl exampleEnvTwoAccounts exampleExporterFiltered).map (fun r => r.2.calls) =
      some [Call.exportUser "A", Call.exportSession "C1"] ∧
    (runImpl exampleEnvTwoAccounts (setNotifier exampleExporter)).map (fun r => r.2.calls) =
      some [Call.exportUser "A", Call.exportSession "C1", Call.exportSession "C2",
        Call.exportUser "B", Call.exportSession "C3"] ∧
    ∃ ret ex' cs, runImpl exampleEnvTwoAccounts exampleExporterFiltered = some (ret, ex') ∧
      ex'.calls = cs ∧ callsRespectFilter [("A", {"C1"})] none cs = true := by
  refine ⟨rfl, rfl, ?_⟩
  obtain ⟨ret, ex', cs, h1, h2, h3⟩ :=
    (C11_filtering exampleEnvTwoAccounts exampleExporterFiltered
      exampleEnvTwoAccounts_users_bound exampleEnvTwoAccounts_sessions_bound).2.1
  exact ⟨ret, ex', cs, h1, by rw [h2]; rfl, h3⟩

end WechatExporter
